import Mathlib

/-!
Shallow embedding of the n8n-MCP workflow-safety core
(`src/n8n-client.ts`, `src/validators.ts`, `src/autofix.ts`,
`src/expressions.ts`, `src/versions.ts`) and proofs about it.

JS objects (`Record<string, T>`) are modelled as insertion-ordered
association lists with unique keys; `obj[k] = v` replaces in place or
appends, `delete obj[k]` removes the key.  Deep clones
(`JSON.parse(JSON.stringify(x))`) are the identity in this value
semantics.  All definitions are computable so that concrete scenarios
evaluate by `decide`.
-/

namespace N8nMcp

/-- JSON-like parameter values (the `Record<string, unknown>` bags of
`types.ts`); object fields keep insertion order. -/
inductive JValue where
  | null : JValue
  | bool (b : Bool) : JValue
  | num (n : Int) : JValue
  | str (s : String) : JValue
  | arr (elems : List JValue) : JValue
  | obj (fields : List (String × JValue)) : JValue
deriving Repr

/-- Models `N8nConnection` of `types.ts`: one target entry
`{node, type, index}` inside an output slot. -/
structure ConnTarget where
  node : String
  type : String
  index : Nat
deriving Repr, DecidableEq

/-- The ordered output slots of one output-type label
(`N8nConnection[][]`). -/
abbrev OutputSlots := List (List ConnTarget)

/-- Output-type label to slots (`{[outputType: string]: N8nConnection[][]}`). -/
abbrev SourceOutputs := List (String × OutputSlots)

/-- Models `N8nConnections`: source node name to its outputs. -/
abbrev Connections := List (String × SourceOutputs)

/-- Models `N8nNode` of `types.ts`. -/
structure Node where
  id : String
  name : String
  type : String
  typeVersion : Nat
  position : Int × Int
  parameters : List (String × JValue)
  credentials : Option (List (String × String × String)) := none
  disabled : Option Bool := none
deriving Repr

/-- Models `N8nWorkflow` of `types.ts` (fields the core reads). -/
structure Workflow where
  id : String
  name : String
  active : Bool
  nodes : List Node
  connections : Connections
  settings : Option (List (String × JValue)) := none
  createdAt : String := ""
  updatedAt : String := ""
deriving Repr

/-- JS object read `m[k]` (first — hence only — binding of `k`). -/
def getKey {α : Type} (m : List (String × α)) (k : String) : Option α :=
  match m with
  | [] => none
  | (k', v) :: rest => if k' = k then some v else getKey rest k

/-- JS object write `m[k] = v`: replace the binding in place if the key
exists, else append at the end (insertion order). -/
def setKey {α : Type} (m : List (String × α)) (k : String) (v : α) : List (String × α) :=
  match m with
  | [] => [(k, v)]
  | (k', v') :: rest => if k' = k then (k, v) :: rest else (k', v') :: setKey rest k v

/-- JS `delete m[k]` (keys are unique, so dropping every pair keyed `k`). -/
def delKey {α : Type} (m : List (String × α)) (k : String) : List (String × α) :=
  m.filter (fun p => p.1 ≠ k)

/-- Models `Partial<N8nNode>` as supplied to an `updateNode` patch operation. -/
structure UpdateProps where
  name : Option String := none
  type : Option String := none
  typeVersion : Option Nat := none
  position : Option (Int × Int) := none
  parameters : Option (List (String × JValue)) := none
  disabled : Option Bool := none
deriving Repr

/-- The closed `PatchOperation` union of `types.ts`.  For `addNode` the
node id has already been resolved (`op.node.id || crypto.randomUUID()` —
the fresh-id fallback is external nondeterminism). -/
inductive PatchOperation where
  | addNode (node : Node)
  | removeNode (nodeName : String)
  | updateNode (nodeName : String) (properties : UpdateProps)
  | addConnection (source target : String) (fromOutput toInput : Option Nat)
      (outputType inputType : Option String)
  | removeConnection (source target : String) (fromOutput toInput : Option Nat)
      (outputType : Option String)
  | updateSettings (settings : List (String × JValue))
  | updateName (name : String)
  | activate
  | deactivate
deriving Repr

/-- JS `opt || default` for the optional string operands (an empty string
is falsy). -/
def jsOrStr (o : Option String) (d : String) : String :=
  match o with
  | none => d
  | some s => if s = "" then d else s

/-- JS `opt || default` for the optional numeric operands (`0` is falsy,
and the default used is `0` itself). -/
def jsOrNat (o : Option Nat) (d : Nat) : Nat :=
  match o with
  | none => d
  | some n => if n = 0 then d else n

/-- Models `Object.assign(node, op.properties)`: every supplied property
overwrites the node's field (parameters are replaced wholesale). -/
def mergeProps (n : Node) (p : UpdateProps) : Node :=
  { n with
    name := p.name.getD n.name
    type := p.type.getD n.type
    typeVersion := p.typeVersion.getD n.typeVersion
    position := p.position.getD n.position
    parameters := p.parameters.getD n.parameters
    disabled := match p.disabled with | some d => some d | none => n.disabled }

/-- In-place update of the first node with the given name
(`result.nodes.find(...)` followed by mutation). -/
def updateFirstNode (nodes : List Node) (nm : String) (f : Node → Node) : List Node :=
  match nodes with
  | [] => []
  | n :: rest => if n.name = nm then f n :: rest else n :: updateFirstNode rest nm f

/-- The connection cleanup of the `removeNode` case: drop the removed
name's own key, then filter it out of every remaining slot. -/
def purgeConnections (conns : Connections) (nm : String) : Connections :=
  (delKey conns nm).map (fun p =>
    (p.1, p.2.map (fun q => (q.1, q.2.map (fun slot =>
      slot.filter (fun c => c.node ≠ nm))))))

/-- The parameter-loss advisory emitted by the `updateNode` case. -/
def paramLossWarning (nodeName : String) (missing : List String) : String :=
  "WARNING: Updating \"" ++ nodeName ++ "\" will remove parameters: " ++
    String.intercalate ", " missing ++
    ". Include all existing parameters to preserve them."

/-- Models `currentKeys.filter((k) => !newKeys.includes(k))`. -/
def missingParamKeys (current replacement : List (String × JValue)) : List String :=
  (current.map Prod.fst).filter (fun k => ¬ (replacement.map Prod.fst).contains k)

/-- Grow the sparse slot array (`while (slots.length <= fromOutput) push([])`). -/
def padSlots (slots : OutputSlots) (fo : Nat) : OutputSlots :=
  if slots.length ≤ fo then slots ++ List.replicate (fo + 1 - slots.length) [] else slots

/-- Models `connections[from]?.[outputType]?.[fromOutput]`. -/
def getSlot (conns : Connections) (source ot : String) (fo : Nat) : Option (List ConnTarget) :=
  match getKey conns source with
  | none => none
  | some outs =>
    match getKey outs ot with
    | none => none
    | some slots => slots.get? fo

/-- Write one slot back (`connections[from][outputType][fromOutput] = slot`). -/
def setSlot (conns : Connections) (source ot : String) (fo : Nat)
    (slot : List ConnTarget) : Connections :=
  let outs := (getKey conns source).getD []
  let slots := (getKey outs ot).getD []
  setKey conns source (setKey outs ot (slots.set fo slot))

/-- One step of `applyOperations` of `n8n-client.ts`: apply a single
patch operation to the (already cloned) workflow, accumulating warnings. -/
def applyOp (acc : Workflow × List String) (op : PatchOperation) : Workflow × List String :=
  let w := acc.1
  let warnings := acc.2
  match op with
  | .addNode node => ({ w with nodes := w.nodes ++ [node] }, warnings)
  | .removeNode nodeName =>
    match w.nodes.findIdx? (fun n => n.name = nodeName) with
    | none => (w, warnings ++ ["Node not found: " ++ nodeName])
    | some idx =>
      ({ w with nodes := w.nodes.eraseIdx idx
                connections := purgeConnections w.connections nodeName }, warnings)
  | .updateNode nodeName props =>
    match w.nodes.find? (fun n => n.name = nodeName) with
    | none => (w, warnings ++ ["Node not found: " ++ nodeName])
    | some node =>
      let warnings' :=
        match props.parameters with
        | some newParams =>
          let missing := missingParamKeys node.parameters newParams
          if missing.length > 0 then warnings ++ [paramLossWarning nodeName missing]
          else warnings
        | none => warnings
      ({ w with nodes := updateFirstNode w.nodes nodeName (fun n => mergeProps n props) },
        warnings')
  | .addConnection source target fromOutput toInput outputType inputType =>
    let ot := jsOrStr outputType "main"
    let fo := jsOrNat fromOutput 0
    let ti := jsOrNat toInput 0
    let it := jsOrStr inputType "main"
    let outs := (getKey w.connections source).getD []
    let slots := padSlots ((getKey outs ot).getD []) fo
    let slot := (slots.get? fo).getD []
    let slots' := slots.set fo (slot ++ [⟨target, it, ti⟩])
    ({ w with connections := setKey w.connections source (setKey outs ot slots') }, warnings)
  | .removeConnection source target fromOutput _toInput outputType =>
    let ot := jsOrStr outputType "main"
    let fo := jsOrNat fromOutput 0
    match getSlot w.connections source ot fo with
    | none => (w, warnings)
    | some slot =>
      match slot.findIdx? (fun c => c.node = target) with
      | none => (w, warnings)
      | some idx =>
        ({ w with connections := setSlot w.connections source ot fo (slot.eraseIdx idx) },
          warnings)
  | .updateSettings settings =>
    ({ w with settings := some (settings.foldl (fun m p => setKey m p.1 p.2)
        (w.settings.getD [])) }, warnings)
  | .updateName name => ({ w with name := name }, warnings)
  | .activate => ({ w with active := true }, warnings)
  | .deactivate => ({ w with active := false }, warnings)

/-- Models `applyOperations(workflow, operations, warnings)`: clone (identity
here), then fold the operations in caller order. -/
def applyOperations (w : Workflow) (ops : List PatchOperation) : Workflow × List String :=
  ops.foldl applyOp (w, [])

/-- The source keys of a connection map. -/
def sourceKeys (conns : Connections) : List String := conns.map Prod.fst

/-- Every target entry of a connection map, across all sources, labels
and slots. -/
def allTargets (conns : Connections) : List ConnTarget :=
  conns.flatMap (fun p => p.2.flatMap (fun q => q.2.flatMap (fun slot => slot)))

/-- A two-node workflow whose connection map references node `x` as a
source key and as a target, for exercising `removeNode`. -/
def cwRemove : Workflow :=
  { id := "1", name := "wf", active := false
    nodes := [
      { id := "a", name := "x", type := "n8n-nodes-base.set", typeVersion := 1,
        position := (0, 0), parameters := [] },
      { id := "b", name := "y", type := "n8n-nodes-base.set", typeVersion := 1,
        position := (0, 0), parameters := [] }]
    connections := [
      ("x", [("main", [[⟨"y", "main", 0⟩]])]),
      ("y", [("main", [[⟨"x", "main", 0⟩, ⟨"y", "main", 1⟩]])])] }

/-- The outcome the parameter-loss claim asserts for an `updateNode`
operation: the advisory warning is appended, and the first node with
the given name still receives the full property merge (its parameter
bag replaced wholesale by the supplied one). -/
def updateNodeOutcome (w : Workflow) (warnings : List String) (nodeName : String)
    (props : UpdateProps) (ps : List (String × JValue)) : Prop :=
  ∃ i node, w.nodes.get? i = some node ∧ node.name = nodeName ∧
    (∀ j < i, ∀ n', w.nodes.get? j = some n' → n'.name ≠ nodeName) ∧
    (applyOp (w, warnings) (.updateNode nodeName props)).1.nodes
      = w.nodes.set i (mergeProps node props) ∧
    (mergeProps node props).parameters = ps ∧
    (applyOp (w, warnings) (.updateNode nodeName props)).2
      = warnings ++ [paramLossWarning nodeName (missingParamKeys node.parameters ps)]

/-- A one-node workflow whose node holds two parameters, for exercising
the `updateNode` parameter-loss warning. -/
def cwUpdate : Workflow :=
  { id := "2", name := "wf", active := false
    nodes := [
      { id := "a", name := "n", type := "n8n-nodes-base.set", typeVersion := 1,
        position := (0, 0),
        parameters := [("keep", JValue.str "1"), ("drop", JValue.str "2")] }]
    connections := [] }

/-- A workflow whose single slot holds three entries, the first match for
`c` differing from the later one in input-type label and index. -/
def cwConn : Workflow :=
  { id := "3", name := "wf", active := false
    nodes := []
    connections := [
      ("a", [("main", [[⟨"b", "main", 0⟩, ⟨"c", "other", 5⟩, ⟨"c", "main", 0⟩]])])] }

/-- The single-quote character (written by code to dodge escaping). -/
def sq : String := String.mk [Char.ofNat 39]

/-- Models `[A-Z]` (the source's regexes are ASCII). -/
def isUpperAlpha (c : Char) : Bool := 'A' ≤ c && c ≤ 'Z'

/-- Models `[a-z]`. -/
def isLowerAlpha (c : Char) : Bool := 'a' ≤ c && c ≤ 'z'

/-- Models `[0-9]`. -/
def isDigitCh (c : Char) : Bool := '0' ≤ c && c ≤ '9'

/-- Models `[0-9a-f]` with the `i` flag. -/
def isHexCh (c : Char) : Bool :=
  isDigitCh c || ('a' ≤ c && c ≤ 'f') || ('A' ≤ c && c ≤ 'F')

/-- Regex `\s` (the whitespace characters arising in workflow names). -/
def isSpaceCh (c : Char) : Bool := c = ' ' || c = '\t' || c = '\n' || c = '\r'

/-- The quote class of the id and secret patterns: a single or double quote. -/
def isQuoteCh (c : Char) : Bool := c = '"' || c = Char.ofNat 39

/-- Models `String.prototype.toLowerCase` (ASCII range). -/
def jsToLower (s : String) : String :=
  ⟨s.data.map (fun c => if isUpperAlpha c then Char.ofNat (c.toNat + 32) else c)⟩

/-- Run-collapsing worker: `inRun` records whether the previous
character already belonged to a collapsed run. -/
def replaceRunsAux (p : Char → Bool) (r : Char) (inRun : Bool) : List Char → List Char
  | [] => []
  | c :: cs =>
    if p c then
      if inRun then replaceRunsAux p r true cs
      else r :: replaceRunsAux p r true cs
    else c :: replaceRunsAux p r false cs

/-- Models `replace(/X+/g, r)`: collapse every run of characters satisfying `p`
into the single character `r`. -/
def replaceRuns (p : Char → Bool) (r : Char) (cs : List Char) : List Char :=
  replaceRunsAux p r false cs

/-- Does `cs` start with the literal sequence `pat`? -/
def listStartsWithSeq : List Char → List Char → Bool
  | _, [] => true
  | [], _ :: _ => false
  | a :: as, b :: bs => a = b && listStartsWithSeq as bs

/-- Models `String.prototype.includes` on character lists. -/
def listContainsSeq : List Char → List Char → Bool
  | [], pat => listStartsWithSeq [] pat
  | c :: cs, pat => listStartsWithSeq (c :: cs) pat || listContainsSeq cs pat

/-- Models `haystack.includes(needle)`. -/
def strContains (s pat : String) : Bool := listContainsSeq s.data pat.data

/-- Does the regex-like position matcher `f` fire at any position? -/
def anyPosMatches (f : List Char → Bool) : List Char → Bool
  | [] => f []
  | c :: cs => f (c :: cs) || anyPosMatches f cs

/-- Models `replace(/pat/g, rep)` for a literal pattern: non-overlapping,
left-to-right, never rescanning the replacement text. -/
def replaceSeq : List Char → List Char → List Char → List Char
  | [], _, _ => []
  | c :: cs, pat, rep =>
    if 0 < pat.length ∧ listStartsWithSeq (c :: cs) pat = true then
      rep ++ replaceSeq ((c :: cs).drop pat.length) pat rep
    else c :: replaceSeq cs pat rep
termination_by cs => cs.length
decreasing_by
  · simp only [List.length_drop, List.length_cons]
    omega
  · simp

/-- Models `s.replace(/pat/g, rep)` for a literal pattern. -/
def replaceSub (s pat rep : String) : String := ⟨replaceSeq s.data pat.data rep.data⟩

/-- One hex digit as JS renders it (lowercase). -/
def hexDigit (n : Nat) : Char := if n < 10 then Char.ofNat (48 + n) else Char.ofNat (87 + n)

/-- Escape one character for a JSON string literal. -/
def escapeChar (c : Char) : List Char :=
  if c = '"' then ['\\', '"']
  else if c = '\\' then ['\\', '\\']
  else if c = '\n' then ['\\', 'n']
  else if c = '\r' then ['\\', 'r']
  else if c = '\t' then ['\\', 't']
  else if c.toNat < 32 then ['\\', 'u', '0', '0', hexDigit (c.toNat / 16), hexDigit (c.toNat % 16)]
  else [c]

/-- A double-quoted, escaped JSON string literal. -/
def quoteJson (s : String) : String := "\"" ++ ⟨s.data.flatMap escapeChar⟩ ++ "\""

mutual

/-- Models `JSON.stringify` for the modelled value space (object fields in
insertion order, as V8 serialises them). -/
def jsonStringify : JValue → String
  | .null => "null"
  | .bool true => "true"
  | .bool false => "false"
  | .num n => toString n
  | .str s => quoteJson s
  | .arr elems => "[" ++ String.intercalate "," (stringifyElems elems) ++ "]"
  | .obj fields => "\x7b" ++ String.intercalate "," (stringifyFields fields) ++ "\x7d"

def stringifyElems : List JValue → List String
  | [] => []
  | v :: vs => jsonStringify v :: stringifyElems vs

def stringifyFields : List (String × JValue) → List String
  | [] => []
  | (k, v) :: fs => (quoteJson k ++ ":" ++ jsonStringify v) :: stringifyFields fs

end

/-- Models `JSON.stringify(node.parameters)`. -/
def stringifyParams (params : List (String × JValue)) : String :=
  jsonStringify (.obj params)

/-- Warning severities of `ValidationWarning`. -/
inductive Severity where
  | error : Severity
  | warning : Severity
  | info : Severity
deriving Repr, DecidableEq

/-- Models `ValidationWarning` of `types.ts` (the snake_case rule never sets
the optional `node` field). -/
structure ValidationWarning where
  node : Option String := none
  rule : String
  message : String
  severity : Severity
deriving Repr, DecidableEq

/-- Models `ValidationResult` of `types.ts`. -/
structure ValidationResult where
  valid : Bool
  warnings : List ValidationWarning
deriving Repr, DecidableEq

/-- The normalisation of `validateSnakeCase`: lowercase, then collapse
whitespace runs to single underscores (hyphens are left alone). -/
def normalizeSnake (name : String) : String :=
  ⟨replaceRuns isSpaceCh '_' (jsToLower name).data⟩

/-- The `^[a-z][a-z0-9_]*$` test. -/
def isSnakePattern (s : String) : Bool :=
  match s.data with
  | [] => false
  | c :: cs => isLowerAlpha c && cs.all (fun d => isLowerAlpha d || isDigitCh d || d = '_')

/-- Models `validateSnakeCase` of `validators.ts`: warn when neither the
normalised nor the raw name matches the snake pattern. -/
def validateSnakeCase (name context : String) : List ValidationWarning :=
  let normalized := normalizeSnake name
  let isSnake := isSnakePattern normalized
  let isAlreadySnake := isSnakePattern name
  if ¬ isSnake && ¬ isAlreadySnake then
    [{ rule := "snake_case",
       message := context ++ " should use snake_case naming: \"" ++ name ++
         "\" → \"" ++ normalized ++ "\"",
       severity := .warning }]
  else []

/-- Models `checkForJsonUsage`: the first pattern `/\$json\./` already subsumes
the second `/\{\{\s*\$json\./`, and the loop stops at the first hit, so
exactly one warning fires iff the serialised parameters contain `$json.`. -/
def checkForJsonUsage (node : Node) : List ValidationWarning :=
  if strContains (stringifyParams node.parameters) "$json." then
    [{ node := some node.name, rule := "explicit_reference",
       message := "Node \"" ++ node.name ++ "\" uses $json - use explicit $(" ++ sq ++
         "node_name" ++ sq ++ ").item.json.field instead",
       severity := .warning }]
  else []

/-- Models `["']\d{17,19}["']` at the current position (the digit run is
maximal, exactly as the backtracking regex resolves it, because the
follower must be a quote). -/
def matchLongIdAt (cs : List Char) : Bool :=
  match cs with
  | [] => false
  | q :: rest =>
    isQuoteCh q &&
      (let run := rest.takeWhile isDigitCh
       17 ≤ run.length && run.length ≤ 19 &&
        match rest.dropWhile isDigitCh with
        | q' :: _ => isQuoteCh q'
        | [] => false)

/-- Consume exactly `n` hex characters. -/
def takeHex : Nat → List Char → Option (List Char)
  | 0, cs => some cs
  | _ + 1, [] => none
  | n + 1, c :: cs => if isHexCh c then takeHex n cs else none

/-- Consume one character satisfying `p`. -/
def takeOne (p : Char → Bool) : List Char → Option (List Char)
  | [] => none
  | c :: cs => if p c then some cs else none

/-- The UUID pattern `["'][0-9a-f]{8}-…-[0-9a-f]{12}["']/i` at the
current position. -/
def matchUuidAt (cs : List Char) : Bool :=
  (do
    let cs ← takeOne isQuoteCh cs
    let cs ← takeHex 8 cs
    let cs ← takeOne (fun c => c = '-') cs
    let cs ← takeHex 4 cs
    let cs ← takeOne (fun c => c = '-') cs
    let cs ← takeHex 4 cs
    let cs ← takeOne (fun c => c = '-') cs
    let cs ← takeHex 4 cs
    let cs ← takeOne (fun c => c = '-') cs
    let cs ← takeHex 12 cs
    let _ ← takeOne isQuoteCh cs
    pure ()).isSome

/-- The ObjectId pattern `["'][0-9a-f]{24}["']/i` at the current position. -/
def matchObjectIdAt (cs : List Char) : Bool :=
  (do
    let cs ← takeOne isQuoteCh cs
    let cs ← takeHex 24 cs
    let _ ← takeOne isQuoteCh cs
    pure ()).isSome

/-- Models `checkForHardcodedIds` (one warning iff any id pattern fires, the
loop breaking at the first hit). -/
def checkForHardcodedIds (node : Node) : List ValidationWarning :=
  let params := (stringifyParams node.parameters).data
  if anyPosMatches matchLongIdAt params || anyPosMatches matchUuidAt params ||
      anyPosMatches matchObjectIdAt params then
    [{ node := some node.name, rule := "no_hardcoded_ids",
       message := "Node \"" ++ node.name ++
         "\" may contain hardcoded IDs - consider using config nodes or environment variables",
       severity := .info }]
  else []

/-- Consume a maximal nonempty run of characters satisfying `p` (exact
for the secret patterns, whose follower is always outside the class). -/
def takeRun (p : Char → Bool) (cs : List Char) : Option (List Char) :=
  if (cs.takeWhile p).length = 0 then none else some (cs.dropWhile p)

/-- The common tail `["']\s*:\s*["']` of the secret patterns. -/
def matchQuoteColonQuote (cs : List Char) : Option (List Char) := do
  let cs ← takeOne isQuoteCh cs
  let cs := cs.dropWhile isSpaceCh
  let cs ← takeOne (fun c => c = ':') cs
  let cs := cs.dropWhile isSpaceCh
  takeOne isQuoteCh cs

/-- Models `key["']\s*:\s*["'][^"']+["']` at the current position. -/
def matchSecretKeyAt (key : String) (cs : List Char) : Bool :=
  (do
    let cs := cs
    let cs ← if listStartsWithSeq cs key.data then some (cs.drop key.length) else none
    let cs ← matchQuoteColonQuote cs
    let cs ← takeRun (fun c => ¬ isQuoteCh c) cs
    let _ ← takeOne isQuoteCh cs
    pure ()).isSome

/-- Models `api[_-]?key…` at the current position (the optional separator is
deterministic: when present it cannot itself start `key`). -/
def matchApiKeyAt (cs : List Char) : Bool :=
  (do
    let cs ← if listStartsWithSeq cs "api".data then some (cs.drop 3) else none
    let cs := match cs with
      | c :: rest => if c = '_' || c = '-' then rest else c :: rest
      | [] => []
    let cs ← if listStartsWithSeq cs "key".data then some (cs.drop 3) else none
    let cs ← matchQuoteColonQuote cs
    let cs ← takeRun (fun c => ¬ isQuoteCh c) cs
    let _ ← takeOne isQuoteCh cs
    pure ()).isSome

/-- Models `token["']\s*:\s*["'][a-z0-9]{20,}["']` at the current position. -/
def matchTokenAt (cs : List Char) : Bool :=
  (do
    let cs ← if listStartsWithSeq cs "token".data then some (cs.drop 5) else none
    let cs ← matchQuoteColonQuote cs
    let run := cs.takeWhile (fun c => isLowerAlpha c || isDigitCh c)
    let cs ← if 20 ≤ run.length then some (cs.dropWhile (fun c => isLowerAlpha c || isDigitCh c))
      else none
    let _ ← takeOne isQuoteCh cs
    pure ()).isSome

/-- Models `checkForHardcodedSecrets` (patterns run on the lowercased
serialisation; one warning iff any fires). -/
def checkForHardcodedSecrets (node : Node) : List ValidationWarning :=
  let params := (jsToLower (stringifyParams node.parameters)).data
  if anyPosMatches matchApiKeyAt params ||
      anyPosMatches (matchSecretKeyAt "secret") params ||
      anyPosMatches (matchSecretKeyAt "password") params ||
      anyPosMatches matchTokenAt params then
    [{ node := some node.name, rule := "no_hardcoded_secrets",
       message := "Node \"" ++ node.name ++
         "\" may contain hardcoded secrets - consider using $env.VAR_NAME",
       severity := .info }]
  else []

/-- The code-node allow-list of `checkForCodeNodeUsage`. -/
def codeNodeTypes : List String :=
  ["n8n-nodes-base.code", "n8n-nodes-base.function", "n8n-nodes-base.functionItem"]

/-- Models `checkForCodeNodeUsage`. -/
def checkForCodeNodeUsage (node : Node) : List ValidationWarning :=
  if codeNodeTypes.any (fun t => strContains node.type t) then
    [{ node := some node.name, rule := "code_node_usage",
       message := "Node \"" ++ node.name ++
         "\" is a code node - ensure built-in nodes can" ++ sq ++ "t achieve this",
       severity := .info }]
  else []

/-- JS truthiness for a possibly-absent parameter value. -/
def truthy : Option JValue → Bool
  | none => false
  | some .null => false
  | some (.bool b) => b
  | some (.num n) => n ≠ 0
  | some (.str s) => s ≠ ""
  | some (.arr _) => true
  | some (.obj _) => true

/-- The AI-node allow-list of `checkForAIStructuredOutput`. -/
def aiNodeTypes : List String :=
  ["langchain.agent", "langchain.chainLlm", "langchain.lmChatOpenAi",
   "langchain.lmChatAnthropic", "langchain.lmChatGoogleGemini"]

/-- Models `params.promptType === 'define'`. -/
def promptTypeIsDefine (params : List (String × JValue)) : Bool :=
  match getKey params "promptType" with
  | some (.str s) => s = "define"
  | _ => false

/-- Models `params.hasOutputParser === true`. -/
def hasOutputParserTrue (params : List (String × JValue)) : Bool :=
  match getKey params "hasOutputParser" with
  | some (.bool b) => b
  | _ => false

/-- Models `checkForAIStructuredOutput`. -/
def checkForAIStructuredOutput (node : Node) : List ValidationWarning :=
  let isAINode := aiNodeTypes.any (fun t => strContains (jsToLower node.type) (jsToLower t))
  if isAINode &&
      (truthy (getKey node.parameters "outputParser") ||
        truthy (getKey node.parameters "schemaType")) &&
      ¬ (promptTypeIsDefine node.parameters && hasOutputParserTrue node.parameters) then
    [{ node := some node.name, rule := "ai_structured_output",
       message := "Node \"" ++ node.name ++
         "\" may need promptType: \"define\" and hasOutputParser: true for reliable structured output",
       severity := .warning }]
  else []

/-- The in-memory-storage allow-list of `checkForInMemoryStorage`. -/
def inMemoryTypes : List String :=
  ["memoryBufferWindow", "memoryVectorStore", "vectorStoreInMemory"]

/-- Models `checkForInMemoryStorage`. -/
def checkForInMemoryStorage (node : Node) : List ValidationWarning :=
  if inMemoryTypes.any (fun t => strContains (jsToLower node.type) (jsToLower t)) then
    [{ node := some node.name, rule := "in_memory_storage",
       message := "Node \"" ++ node.name ++
         "\" uses in-memory storage - consider Postgres for production persistence",
       severity := .warning }]
  else []

/-- Models `validateNode`: the seven per-node rules, in source order. -/
def validateNode (node : Node) : List ValidationWarning :=
  validateSnakeCase node.name ("node \"" ++ node.name ++ "\"") ++
    checkForJsonUsage node ++
    checkForHardcodedIds node ++
    checkForHardcodedSecrets node ++
    checkForCodeNodeUsage node ++
    checkForAIStructuredOutput node ++
    checkForInMemoryStorage node

/-- Every node name occurring in the connection map as source or target
(the `connectedNodes` set). -/
def connectedNames (conns : Connections) : List String :=
  conns.flatMap (fun p =>
    p.1 :: p.2.flatMap (fun q => q.2.flatMap (fun slot => slot.map (fun c => c.node))))

/-- The trigger allow-list of `validateConnections`. -/
def triggerTypes : List String :=
  ["n8n-nodes-base.webhook", "n8n-nodes-base.scheduleTrigger",
   "n8n-nodes-base.manualTrigger", "n8n-nodes-base.emailTrigger",
   "@n8n/n8n-nodes-langchain.chatTrigger"]

/-- Models `String.prototype.split(sep)` on character lists. -/
def splitChars (sep : Char) : List Char → List (List Char)
  | [] => [[]]
  | c :: rest =>
    if c = sep then [] :: splitChars sep rest
    else
      match splitChars sep rest with
      | [] => [[c]]
      | g :: gs => (c :: g) :: gs

/-- Models `t.split('.')[1]` (every allow-list entry has a dot). -/
def secondDotComponent (t : String) : String :=
  ⟨(splitChars '.' t.data).getD 1 []⟩

/-- Models `node.type.includes(t.split('.')[1])` for one allow-list entry. -/
def matchesTriggerEntry (nodeType t : String) : Bool :=
  strContains nodeType (secondDotComponent t)

/-- Models `validateConnections`: warn per orphan non-trigger node. -/
def validateConnections (w : Workflow) : List ValidationWarning :=
  w.nodes.flatMap (fun node =>
    if ¬ triggerTypes.any (fun t => matchesTriggerEntry node.type t) &&
        ¬ (connectedNames w.connections).contains node.name then
      [{ node := some node.name, rule := "orphan_node",
         message := "Node \"" ++ node.name ++ "\" has no connections - may be orphaned",
         severity := .warning }]
    else [])

/-- Models `validateWorkflow` of `validators.ts`. -/
def validateWorkflow (w : Workflow) : ValidationResult :=
  let warnings :=
    validateSnakeCase w.name "workflow" ++
      w.nodes.flatMap validateNode ++
      validateConnections w
  { valid := (warnings.filter (fun warn => warn.severity = Severity.error)).length = 0
    warnings := warnings }

/-- Models `AutofixAction` of `autofix.ts`. -/
structure AutofixAction where
  type : String
  target : String
  description : String
  before : Option String := none
  after : Option String := none
deriving Repr, DecidableEq

/-- Models `AutofixResult` of `autofix.ts`. -/
structure AutofixResult where
  workflow : Workflow
  fixes : List AutofixAction
  unfixable : List ValidationWarning
deriving Repr

/-- Models `toSnakeCase` of `autofix.ts`: prefix uppercase with `_`, collapse
hyphen/whitespace runs to `_`, strip one leading `_`, collapse `_` runs,
lowercase. -/
def toSnakeCase (name : String) : String :=
  let s1 := name.data.flatMap (fun c => if isUpperAlpha c then ['_', c] else [c])
  let s2 := replaceRuns (fun c => c = '-' || isSpaceCh c) '_' s1
  let s3 := match s2 with
    | '_' :: rest => rest
    | l => l
  let s4 := replaceRuns (fun c => c = '_') '_' s3
  jsToLower ⟨s4⟩

/-- Rename one target entry if it names `oldName`. -/
def renTgt (oldName newName : String) (c : ConnTarget) : ConnTarget :=
  if c.node = oldName then { c with node := newName } else c

/-- Rename every target entry of one source's outputs. -/
def renameOuts (oldName newName : String) (outs : SourceOutputs) : SourceOutputs :=
  outs.map (fun q => (q.1, q.2.map (fun slot => slot.map (renTgt oldName newName))))

/-- Rewrite every target entry naming `oldName` to `newName` (the
target-rewrite loop of `fixSnakeCase`). -/
def renameTargets (conns : Connections) (oldName newName : String) : Connections :=
  conns.map (fun p => (p.1, renameOuts oldName newName p.2))

/-- Models `fixSnakeCase` of `autofix.ts`; the pair returns the (possibly
mutated) workflow together with the action, `none` meaning no fix. -/
def fixSnakeCase (w : Workflow) (warning : ValidationWarning) :
    Workflow × Option AutofixAction :=
  match warning.node with
  | none =>
    let oldName := w.name
    let newName := toSnakeCase oldName
    if oldName = newName then (w, none)
    else
      ({ w with name := newName },
        some { type := "rename", target := "workflow",
               description := "Renamed workflow to snake_case",
               before := some oldName, after := some newName })
  | some target =>
    match w.nodes.find? (fun n => n.name = target) with
    | none => (w, none)
    | some node =>
      let oldName := node.name
      let newName := toSnakeCase oldName
      if oldName = newName then (w, none)
      else
        let nodes := updateFirstNode w.nodes oldName (fun n => { n with name := newName })
        let conns := match getKey w.connections oldName with
          | some v => delKey (setKey w.connections newName v) oldName
          | none => w.connections
        let conns := renameTargets conns oldName newName
        ({ w with nodes := nodes, connections := conns },
          some { type := "rename", target := "node:" ++ oldName,
                 description := "Renamed node to snake_case",
                 before := some oldName, after := some newName })

/-- Models `findPreviousNode`: the first source (in map, label, slot, entry
order) wiring into the given node. -/
def findPreviousNode (conns : Connections) (nodeName : String) : Option String :=
  match conns with
  | [] => none
  | (src, outs) :: rest =>
    if outs.any (fun q => q.2.any (fun slot => slot.any (fun c => c.node = nodeName)))
    then some src
    else findPreviousNode rest nodeName

mutual

/-- Apply `f` to every string of a JSON value — scalar strings and
object keys alike. -/
def rewriteStrings (f : String → String) : JValue → JValue
  | .null => .null
  | .bool b => .bool b
  | .num n => .num n
  | .str s => .str (f s)
  | .arr elems => .arr (rewriteElems f elems)
  | .obj fields => .obj (rewriteFields f fields)

def rewriteElems (f : String → String) : List JValue → List JValue
  | [] => []
  | v :: vs => rewriteStrings f v :: rewriteElems f vs

def rewriteFields (f : String → String) : List (String × JValue) → List (String × JValue)
  | [] => []
  | (k, v) :: fs => (f k, rewriteStrings f v) :: rewriteFields f fs

end

/-- Models `fixExplicitReference` of `autofix.ts`.  The source rewrites the
serialised parameter text and re-parses it; since the pattern `$json.`
and its replacement contain no JSON delimiters, every match lies inside
a single string literal, so re-parsing the replaced text equals
rewriting each string scalar and key structurally — which is how the
mutation is modelled here.  The change test is kept on the serialised
text, exactly as in the source.  (The source's second replace, of
`{{\s*$json.`, can never fire: the first global replace has already
eliminated every occurrence of `$json.`.) -/
def fixExplicitReference (w : Workflow) (warning : ValidationWarning) :
    Workflow × Option AutofixAction :=
  match warning.node with
  | none => (w, none)
  | some target =>
    match w.nodes.find? (fun n => n.name = target) with
    | none => (w, none)
    | some node =>
      match findPreviousNode w.connections node.name with
      | none => (w, none)
      | some prev =>
        let repl := "$(" ++ sq ++ prev ++ sq ++ ").item.json."
        let params := stringifyParams node.parameters
        let fixedParams := replaceSub params "$json." repl
        if params = fixedParams then (w, none)
        else
          ({ w with nodes := updateFirstNode w.nodes target (fun n =>
              { n with parameters :=
                  rewriteFields (fun s => replaceSub s "$json." repl) n.parameters }) },
            some { type := "expression_fix", target := "node:" ++ node.name,
                   description := "Changed $json to explicit $(" ++ sq ++ prev ++ sq ++
                     ") reference",
                   before := some "$json.",
                   after := some ("$(" ++ sq ++ prev ++ sq ++ ").item.json.") })

/-- Models `fixAIStructuredOutput` of `autofix.ts`. -/
def fixAIStructuredOutput (w : Workflow) (warning : ValidationWarning) :
    Workflow × Option AutofixAction :=
  match warning.node with
  | none => (w, none)
  | some target =>
    match w.nodes.find? (fun n => n.name = target) with
    | none => (w, none)
    | some node =>
      let promptOk := promptTypeIsDefine node.parameters
      let parserOk := hasOutputParserTrue node.parameters
      let step1 :=
        if ¬ promptOk then
          (setKey node.parameters "promptType" (.str "define"), ["promptType: \"define\""])
        else (node.parameters, [])
      let step2 :=
        if ¬ parserOk then
          (setKey step1.1 "hasOutputParser" (.bool true), step1.2 ++ ["hasOutputParser: true"])
        else step1
      if step2.2 = [] then (w, none)
      else
        ({ w with nodes := updateFirstNode w.nodes target (fun n =>
            { n with parameters := step2.1 }) },
          some { type := "parameter_fix", target := "node:" ++ node.name,
                 description := "Added AI structured output settings: " ++
                   String.intercalate ", " step2.2 })

/-- Models `attemptFix`: dispatch on the rule identifier; every other rule is
unfixable. -/
def attemptFix (w : Workflow) (warning : ValidationWarning) :
    Workflow × Option AutofixAction :=
  if warning.rule = "snake_case" then fixSnakeCase w warning
  else if warning.rule = "explicit_reference" then fixExplicitReference w warning
  else if warning.rule = "ai_structured_output" then fixAIStructuredOutput w warning
  else (w, none)

/-- One step of the `autofixWorkflow` loop: a returned action goes to
`fixes`, a `null` pushes the warning to `unfixable`. -/
def autofixStep (acc : Workflow × List AutofixAction × List ValidationWarning)
    (warning : ValidationWarning) :
    Workflow × List AutofixAction × List ValidationWarning :=
  match attemptFix acc.1 warning with
  | (w', some a) => (w', acc.2.1 ++ [a], acc.2.2)
  | (w', none) => (w', acc.2.1, acc.2.2 ++ [warning])

/-- Models `autofixWorkflow` of `autofix.ts`: clone (identity here), then fold
the warnings over the progressively mutated clone. -/
def autofixWorkflow (w : Workflow) (warnings : List ValidationWarning) : AutofixResult :=
  let acc := warnings.foldl autofixStep (w, [], [])
  { workflow := acc.1, fixes := acc.2.1, unfixable := acc.2.2 }

/-- Scenario A's single node: a webhook trigger named `MyTrigger`. -/
def scenarioANode : Node :=
  { id := "t1", name := "MyTrigger", type := "n8n-nodes-base.webhook", typeVersion := 1,
    position := (0, 0), parameters := [] }

/-- Scenario A: the workflow named `My-Workflow` with that one node. -/
def scenarioA : Workflow :=
  { id := "A", name := "My-Workflow", active := false, nodes := [scenarioANode],
    connections := [] }

/-- An already-snake-cased workflow, for the nothing-to-fix path. -/
def snakeNoopWorkflow : Workflow :=
  { id := "S", name := "my_workflow", active := false, nodes := [], connections := [] }

/-- A snake_case warning whose target (the workflow) is already
normalised. -/
def snakeNoopWarning : ValidationWarning :=
  { rule := "snake_case",
    message := "workflow should use snake_case naming", severity := .warning }

/-- Everything the rename claim asserts about one applied node-rename
fix: a fix is recorded, the target-entry count is preserved, nothing
references the old name any more, the old key's outputs now sit under
the new name (targets renamed), and every other key maps to its old
outputs with targets renamed. -/
def renameOutcome (w : Workflow) (warning : ValidationWarning) (old : String) : Prop :=
  (fixSnakeCase w warning).2.isSome = true ∧
  (allTargets (fixSnakeCase w warning).1.connections).length
    = (allTargets w.connections).length ∧
  (∀ src ∈ sourceKeys (fixSnakeCase w warning).1.connections, src ≠ old) ∧
  (∀ c ∈ allTargets (fixSnakeCase w warning).1.connections, c.node ≠ old) ∧
  (∀ v, getKey w.connections old = some v →
    getKey (fixSnakeCase w warning).1.connections (toSnakeCase old)
      = some (renameOuts old (toSnakeCase old) v)) ∧
  (∀ s, s ≠ old → s ≠ toSnakeCase old →
    getKey (fixSnakeCase w warning).1.connections s
      = (getKey w.connections s).map (renameOuts old (toSnakeCase old)))

/-- The node being renamed in the connection-clash scenarios. -/
def renameNode : Node :=
  { id := "n1", name := "MyNode", type := "n8n-nodes-base.set", typeVersion := 1,
    position := (0, 0), parameters := [] }

/-- A workflow whose connection map already holds a key equal to the
snake_case form of the node to be renamed. -/
def cwRenameClash : Workflow :=
  { id := "R", name := "wf", active := false, nodes := [renameNode]
    connections := [
      ("MyNode", [("main", [[⟨"a", "main", 0⟩]])]),
      ("my_node", [("main", [[⟨"b", "main", 0⟩]])])] }

/-- The snake_case warning for that node. -/
def warnRenameClash : ValidationWarning :=
  { node := some "MyNode", rule := "snake_case", message := "", severity := .warning }

/-- A clash-free rename scenario (the normalised key is fresh). -/
def cwRenameOk : Workflow :=
  { id := "R2", name := "wf", active := false, nodes := [renameNode]
    connections := [
      ("MyNode", [("main", [[⟨"other", "main", 0⟩]])]),
      ("other", [("main", [[⟨"MyNode", "main", 0⟩, ⟨"x", "main", 1⟩]])])] }

/-- Models `ExpressionIssue` of `expressions.ts`. -/
structure ExpressionIssue where
  node : String
  parameter : String
  expression : String
  issue : String
  severity : Severity
  suggestion : Option String := none
deriving Repr, DecidableEq

/-- The per-expression part of an issue (before node/parameter/
expression are attached). -/
structure IssueCore where
  issue : String
  severity : Severity
  suggestion : Option String := none
deriving Repr, DecidableEq

/-- Models `'{'`. -/
def obrace : Char := Char.ofNat 123

/-- Models `'}'`. -/
def cbrace : Char := Char.ofNat 125

/-- The characters regex `.` does not match (also U+2028/U+2029 in JS;
they do not arise here). -/
def isNewlineCh (c : Char) : Bool := c = '\n' || c = '\r'

/-- The lazy tail of `/\{\{.*?\}\}/`: consume as little as possible up
to the first `\x7d\x7d`, failing on a newline; returns the consumed
characters (closing braces included) and the rest. -/
def lazyCloseBrace : List Char → Option (List Char × List Char)
  | c₁ :: c₂ :: cs =>
    if c₁ = cbrace && c₂ = cbrace then some ([cbrace, cbrace], cs)
    else if isNewlineCh c₁ then none
    else (lazyCloseBrace (c₂ :: cs)).map (fun p => (c₁ :: p.1, p.2))
  | _ => none

/-- Models `value.match(/\{\{.*?\}\}/g)`: leftmost, non-overlapping; a failed
attempt restarts one character later.  Fuelled by the input length so
the definition stays structurally recursive (a successful match always
consumes at least one character, so the fuel never runs short). -/
def braceMatchesFuel : Nat → List Char → List String
  | 0, _ => []
  | _ + 1, [] => []
  | fuel + 1, c :: cs =>
    if listStartsWithSeq (c :: cs) [obrace, obrace] then
      match lazyCloseBrace ((c :: cs).drop 2) with
      | some (m, rest) => (⟨obrace :: obrace :: m⟩ : String) :: braceMatchesFuel fuel rest
      | none => braceMatchesFuel fuel cs
    else braceMatchesFuel fuel cs

/-- All `\x7b\x7b…\x7d\x7d` matches of a string. -/
def braceMatches (s : String) : List String := braceMatchesFuel s.data.length s.data

/-- Models `s.startsWith(pat)`. -/
def strStartsWithSeq (s pat : String) : Bool := listStartsWithSeq s.data pat.data

/- In the array branch, an element that is itself an array is passed
back through `extractExpressions` as `Object.entries` of the array:
index-keyed entries, here inlined as direct indexed iteration (the
resulting paths join the index keys with dots). -/
mutual

/-- Models `extractExpressions(params, basePath)` of `expressions.ts`. -/
def extractFromEntries (entries : List (String × JValue)) (basePath : String) :
    List (String × String) :=
  match entries with
  | [] => []
  | (key, value) :: rest =>
    (extractFromValue value (if basePath = "" then key else basePath ++ "." ++ key)) ++
      extractFromEntries rest basePath

/-- One entry's value: strings yield their brace matches plus the whole
string when it starts with `={\x7b`; arrays iterate elements; objects
recurse. -/
def extractFromValue (value : JValue) (path : String) : List (String × String) :=
  match value with
  | .str s =>
    (braceMatches s).map (fun m => (path, m)) ++
      (if strStartsWithSeq s "=\x7b\x7b" then [(path, s)] else [])
  | .arr elems => extractFromArray elems path 0
  | .obj fields => extractFromEntries fields path
  | _ => []

/-- The array-element loop: objects and nested arrays recurse with the
indexed path; strings yield only their brace matches (no `={\x7b` case). -/
def extractFromArray (elems : List JValue) (path : String) (i : Nat) :
    List (String × String) :=
  match elems with
  | [] => []
  | v :: vs =>
    (match v with
      | .obj fields => extractFromEntries fields (path ++ "[" ++ toString i ++ "]")
      | .arr inner => extractFromIndexed inner (path ++ "[" ++ toString i ++ "]") 0
      | .str s =>
        (braceMatches s).map (fun m => (path ++ "[" ++ toString i ++ "]", m))
      | _ => []) ++
      extractFromArray vs path (i + 1)

/-- Models `extractExpressions` applied to the index-keyed entries of a nested
array (`Object.entries` of an array). -/
def extractFromIndexed (elems : List JValue) (basePath : String) (j : Nat) :
    List (String × String) :=
  match elems with
  | [] => []
  | v :: vs =>
    extractFromValue v (basePath ++ "." ++ toString j) ++
      extractFromIndexed vs basePath (j + 1)

end

/-- Models `extractExpressions(node.parameters)`. -/
def extractExpressions (params : List (String × JValue)) : List (String × String) :=
  extractFromEntries params ""

/-- JS `String.prototype.trim` (the whitespace arising here). -/
def jsTrim (s : String) : String :=
  ⟨((s.data.dropWhile isSpaceCh).reverse.dropWhile isSpaceCh).reverse⟩

/-- The wrapper stripping at the top of `validateExpression`. -/
def stripExprWrapper (expression : String) : String :=
  if strStartsWithSeq expression "=\x7b\x7b" then
    jsTrim ⟨expression.data.drop 3⟩
  else if strStartsWithSeq expression "\x7b\x7b" &&
      expression.data.reverse.take 2 = [cbrace, cbrace] then
    jsTrim ⟨(expression.data.drop 2).take (expression.data.length - 4)⟩
  else expression

/-- One `\$\(['"]([^'"]+)['"]\)` match at the current position,
returning the captured name and the rest (deterministic: the name run
is maximal because its follower must be a quote). -/
def matchRefAt (cs : List Char) : Option (String × List Char) := do
  let cs ← if listStartsWithSeq cs "$(".data then some (cs.drop 2) else none
  let cs ← takeOne isQuoteCh cs
  let name := cs.takeWhile (fun c => ¬ isQuoteCh c)
  let cs := cs.dropWhile (fun c => ¬ isQuoteCh c)
  let cs ← if name.length = 0 then none else some cs
  let cs ← takeOne isQuoteCh cs
  let cs ← takeOne (fun c => c = ')') cs
  pure (⟨name⟩, cs)

/-- Models `inner.matchAll(/\$\(['"]([^'"]+)['"]\)/g)`: non-overlapping, a
failed position advances by one.  Fuelled by the input length (every
match consumes at least one character). -/
def extractRefsFuel : Nat → List Char → List String
  | 0, _ => []
  | _ + 1, [] => []
  | fuel + 1, c :: cs =>
    match matchRefAt (c :: cs) with
    | some (name, rest) => name :: extractRefsFuel fuel rest
    | none => extractRefsFuel fuel cs

/-- All captured node names of the explicit-reference calls in a string. -/
def extractRefs (s : String) : List String := extractRefsFuel s.data.length s.data

/-- Models `s.match(/c/g).length`. -/
def countCh (c : Char) (s : String) : Nat := (s.data.filter (fun d => d = c)).length

/-- Models `[a-zA-Z_]`. -/
def isIdentCh (c : Char) : Bool := isLowerAlpha c || isUpperAlpha c || c = '_'

/-- Models `\.json\.[a-zA-Z_]+\.[a-zA-Z_]+` at the current position. -/
def matchDeepAt (cs : List Char) : Bool :=
  (do
    let cs ← if listStartsWithSeq cs ".json.".data then some (cs.drop 6) else none
    let cs ← takeRun isIdentCh cs
    let cs ← takeOne (fun c => c = '.') cs
    let _ ← takeRun isIdentCh cs
    pure ()).isSome

/-- The error issue reported for an unresolved explicit reference. -/
def refIssueMsg (nm : String) : String :=
  "References non-existent node \"" ++ nm ++ "\""

/-- Models `validateExpression` of `expressions.ts`: the eight checks, in
source order, on the stripped inner text (the missing-close check runs
on the unstripped expression). -/
def validateExpression (expression : String) (nodeNames : List String) : List IssueCore :=
  let inner := stripExprWrapper expression
  (if strContains inner "$json." &&
      ¬ (strContains inner ("$(" ++ sq) || strContains inner "$(\"") then
    [{ issue := "Uses $json instead of explicit node reference", severity := .warning,
       suggestion := some ("Use $(" ++ sq ++ "node_name" ++ sq ++ ").item.json.field instead") }]
  else []) ++
  (if strContains inner "$input." then
    [{ issue := "$input reference found - ensure this is intentional", severity := .info,
       suggestion := some ("Consider explicit $(" ++ sq ++ "node_name" ++ sq ++ ") for clarity") }]
  else []) ++
  ((extractRefs inner).filter (fun nm => ¬ nodeNames.contains nm)).map (fun nm =>
    { issue := refIssueMsg nm, severity := .error,
      suggestion := some "Check if the node exists or was renamed" }) ++
  (if strContains expression "\x7b\x7b" && ¬ strContains expression "\x7d\x7d" then
    [{ issue := "Missing closing \x7d\x7d", severity := .error }]
  else []) ++
  (if ¬ (countCh '(' inner = countCh ')' inner) then
    [{ issue := "Unmatched parentheses", severity := .error }]
  else []) ++
  (if ¬ (countCh '[' inner = countCh ']' inner) then
    [{ issue := "Unmatched brackets", severity := .error }]
  else []) ++
  (if strContains inner "$node." then
    [{ issue := "$node is deprecated", severity := .warning,
       suggestion := some ("Use $(" ++ sq ++ "node_name" ++ sq ++ ") instead") }]
  else []) ++
  (if anyPosMatches matchDeepAt inner.data && ¬ strContains inner "?." then
    [{ issue := "Deep property access without optional chaining", severity := .info,
       suggestion := some "Consider using ?. for safer access: obj?.nested?.field" }]
  else [])

/-- The node names of a workflow (the `Set` built by
`validateExpressions`). -/
def workflowNodeNames (w : Workflow) : List String := w.nodes.map Node.name

/-- Models `validateNodeExpressions`: attach node/parameter/expression to each
issue of each extracted expression. -/
def validateNodeExpressions (node : Node) (nodeNames : List String) : List ExpressionIssue :=
  (extractExpressions node.parameters).flatMap (fun pe =>
    (validateExpression pe.2 nodeNames).map (fun core =>
      { node := node.name, parameter := pe.1, expression := pe.2,
        issue := core.issue, severity := core.severity, suggestion := core.suggestion }))

/-- Models `validateExpressions` of `expressions.ts`. -/
def validateExpressions (w : Workflow) : List ExpressionIssue :=
  w.nodes.flatMap (fun node => validateNodeExpressions node (workflowNodeNames w))

/-- A workflow with a resolvable and an unresolvable explicit
reference, for exercising the expression analyzer. -/
def exprNode : Node :=
  { id := "u", name := "user", type := "n8n-nodes-base.set", typeVersion := 1,
    position := (0, 0),
    parameters := [("msg", JValue.str "=\x7b\x7b $(\"ghost\").item.json.x \x7d\x7d")] }

/-- The workflow around `exprNode` (no node is named `ghost`). -/
def exprWorkflow : Workflow :=
  { id := "E", name := "wf", active := false, nodes := [exprNode], connections := [] }

/-- Models `WorkflowVersion` of `versions.ts` (snapshot metadata). -/
structure WorkflowVersion where
  id : String
  workflowId : String
  workflowName : String
  timestamp : String
  reason : String
  nodeCount : Nat
  hash : String
deriving Repr, DecidableEq

/-- One snapshot file: metadata record plus the full workflow payload. -/
structure StoredVersion where
  meta : WorkflowVersion
  workflow : Workflow
deriving Repr

/-- The on-disk snapshot set (the files under the storage root; the
per-workflow directories are recovered by filtering on `workflowId`). -/
structure VersionStore where
  entries : List StoredVersion
deriving Repr

/-- Models `VersionConfig` (the storage path is abstracted away; the design
note models the process-wide config as an explicit value). -/
structure VersionConfig where
  enabled : Bool
  maxVersions : Nat
deriving Repr, DecidableEq

/-- Wrap to a signed 32-bit integer (`hash = hash & hash` after `<<`). -/
def toInt32 (n : Int) : Int := ((n + 2 ^ 31) % 2 ^ 32) - 2 ^ 31

/-- One step of the rolling hash:
`hash = ((hash << 5) - hash) + charCode; hash = hash & hash`. -/
def jsHashStep (h : Int) (code : Nat) : Int := toInt32 (toInt32 (h * 32) - h + code)

/-- The character-code fold of `hashWorkflow` (`charCodeAt` equals the
code point for the BMP strings arising here). -/
def jsHash (s : String) : Int := s.data.foldl (fun h c => jsHashStep h c.toNat) 0

/-- Models `n.toString(16)` for the absolute hash value. -/
def natToHex (n : Nat) : String := ⟨Nat.toDigits 16 n⟩

/-- Models `.padStart(8, '0')`. -/
def padStart8 (s : String) : String :=
  if s.length < 8 then (⟨List.replicate (8 - s.length) '0'⟩ : String) ++ s else s

/-- A target entry as serialised into the hashed content. -/
def targetToJson (c : ConnTarget) : JValue :=
  .obj [("node", .str c.node), ("type", .str c.type), ("index", .num c.index)]

/-- The connection map as serialised into the hashed content. -/
def connectionsToJson (conns : Connections) : JValue :=
  .obj (conns.map (fun p =>
    (p.1, .obj (p.2.map (fun q =>
      (q.1, .arr (q.2.map (fun slot => .arr (slot.map targetToJson)))))))))

/-- A node as serialised into the hashed content (fields in the
interface's order; absent optionals are omitted, as `JSON.stringify`
drops `undefined`). -/
def nodeToJson (n : Node) : JValue :=
  .obj ([("id", .str n.id), ("name", .str n.name), ("type", .str n.type),
    ("typeVersion", .num n.typeVersion),
    ("position", .arr [.num n.position.1, .num n.position.2]),
    ("parameters", .obj n.parameters)] ++
    (match n.credentials with
      | some creds => [("credentials", .obj (creds.map (fun c =>
          (c.1, .obj [("id", .str c.2.1), ("name", .str c.2.2)]))))]
      | none => []) ++
    (match n.disabled with
      | some b => [("disabled", .bool b)]
      | none => []))

/-- Models `hashWorkflow` of `versions.ts`: the 32-bit rolling hash of
`JSON.stringify({nodes, connections, settings})` — the hash reads only
those three fields — rendered as `Math.abs(hash).toString(16).padStart(8, '0')`. -/
def hashWorkflow (w : Workflow) : String :=
  let content := jsonStringify (.obj
    ([("nodes", .arr (w.nodes.map nodeToJson)),
      ("connections", connectionsToJson w.connections)] ++
      (match w.settings with
        | some s => [("settings", .obj s)]
        | none => [])))
  padStart8 (natToHex (jsHash content).natAbs)

/-- Lexicographic `<` on character lists (`localeCompare` coincides with
code-unit order on the ISO timestamps compared here). -/
def charListLt : List Char → List Char → Bool
  | [], [] => false
  | [], _ :: _ => true
  | _ :: _, [] => false
  | a :: as, b :: bs => if a < b then true else if b < a then false else charListLt as bs

/-- Insert into a timestamp-descending list, before the first entry it
is not older than (stable, like `Array.prototype.sort`). -/
def insertByTimestampDesc (m : WorkflowVersion) :
    List WorkflowVersion → List WorkflowVersion
  | [] => [m]
  | x :: xs =>
    if charListLt m.timestamp.data x.timestamp.data then x :: insertByTimestampDesc m xs
    else m :: x :: xs

/-- Models `versions.sort((a, b) => b.timestamp.localeCompare(a.timestamp))`:
newest first; any stable sort realises the same result. -/
def sortByTimestampDesc : List WorkflowVersion → List WorkflowVersion
  | [] => []
  | m :: ms => insertByTimestampDesc m (sortByTimestampDesc ms)

/-- Models `listVersions`: the metadata of every snapshot of the workflow,
newest first. -/
def listVersions (store : VersionStore) (workflowId : String) : List WorkflowVersion :=
  sortByTimestampDesc
    ((store.entries.filter (fun e => e.meta.workflowId = workflowId)).map (fun e => e.meta))

/-- Models `timestamp.replace(/[:.]/g, '-')`. -/
def tsId (timestamp : String) : String :=
  ⟨timestamp.data.map (fun c => if c = ':' || c = '.' then '-' else c)⟩

/-- Models `pruneVersions`: delete the snapshots beyond the retention ceiling
(the deleted count is unused by the caller). -/
def pruneVersions (cfg : VersionConfig) (store : VersionStore)
    (workflowId : String) : VersionStore :=
  let versions := listVersions store workflowId
  if versions.length ≤ cfg.maxVersions then store
  else
    let doomed := (versions.drop cfg.maxVersions).map (fun m => m.id)
    ⟨store.entries.filter (fun e =>
      ¬ (e.meta.workflowId = workflowId && doomed.contains e.meta.id))⟩

/-- The metadata record written by `saveVersion`
(`versionId = timestamp.replace(/[:.]/g, '-') + '_' + hash.slice(0, 6)`). -/
def writeMeta (w : Workflow) (reason timestamp hash : String) : WorkflowVersion :=
  { id := tsId timestamp ++ "_" ++ (⟨hash.data.take 6⟩ : String),
    workflowId := w.id, workflowName := w.name, timestamp := timestamp,
    reason := reason, nodeCount := w.nodes.length, hash := hash }

/-- The write path of `saveVersion`: build the timestamped record,
append the file, prune. -/
def writeVersion (cfg : VersionConfig) (store : VersionStore) (w : Workflow)
    (reason timestamp hash : String) : VersionStore × Option WorkflowVersion :=
  (pruneVersions cfg ⟨store.entries ++ [⟨writeMeta w reason timestamp hash, w⟩]⟩ w.id,
    some (writeMeta w reason timestamp hash))

/-- Models `saveVersion` of `versions.ts` (the wall-clock timestamp is passed
in explicitly): no-op when disabled; no-op returning `none` when the
newest stored snapshot for the workflow id already carries the same
content hash; otherwise write and prune. -/
def saveVersion (cfg : VersionConfig) (store : VersionStore) (w : Workflow)
    (reason timestamp : String) : VersionStore × Option WorkflowVersion :=
  if cfg.enabled then
    let hash := hashWorkflow w
    match listVersions store w.id with
    | m :: _ =>
      if m.hash = hash then (store, none)
      else writeVersion cfg store w reason timestamp hash
    | [] => writeVersion cfg store w reason timestamp hash
  else (store, none)

/-- A content-identical pair of workflows differing only in `name` and
`active`, plus a store already holding the older one's snapshot. -/
def versionedW1 : Workflow :=
  { id := "V", name := "old_name", active := false, nodes := [], connections := [] }

/-- Models `versionedW1` with only `name` and `active` changed. -/
def versionedW2 : Workflow :=
  { id := "V", name := "renamed", active := true, nodes := [], connections := [] }

/-- A store holding one snapshot of `versionedW1`. -/
def versionedStore : VersionStore :=
  ⟨[⟨writeMeta versionedW1 "manual" "2024-01-01T00:00:00.000Z" (hashWorkflow versionedW1),
     versionedW1⟩]⟩

/-- The default configuration (`enabled`, 20 retained versions). -/
def defaultVersionConfig : VersionConfig := ⟨true, 20⟩

lemma sourceKeys_purgeConnections (conns : Connections) (nm : String) :
    ∀ src ∈ sourceKeys (purgeConnections conns nm), src ≠ nm := by
  intro src hsrc
  simp only [sourceKeys, purgeConnections, delKey, List.map_map, List.mem_map,
    List.mem_filter] at hsrc
  obtain ⟨p, ⟨_, hp⟩, hsrc⟩ := hsrc
  simp only [Function.comp] at hsrc
  subst hsrc
  simpa using hp

lemma allTargets_purgeConnections (conns : Connections) (nm : String) :
    ∀ c ∈ allTargets (purgeConnections conns nm), c.node ≠ nm := by
  intro c hc
  simp only [allTargets, purgeConnections, delKey, List.mem_flatMap, List.mem_map,
    List.mem_filter] at hc
  obtain ⟨p, ⟨p₀, _, hp⟩, q, hq, slot, hslot, hc⟩ := hc
  subst hp
  simp only [List.mem_map] at hq
  obtain ⟨q₀, _, hq⟩ := hq
  subst hq
  simp only [List.mem_map] at hslot
  obtain ⟨slot₀, _, hslot⟩ := hslot
  subst hslot
  simp only [List.mem_filter, decide_not] at hc
  have := hc.2
  simpa using this

/-- C1: after a `removeNode` operation for a name present among the
workflow's nodes, that name occurs neither as a source key of the
resulting connection map nor as the node name of any remaining target
entry under any label or slot. -/
theorem removeNode_purges_all_references (w : Workflow) (warnings : List String)
    (nodeName : String) (h : ∃ n ∈ w.nodes, n.name = nodeName) :
    (∀ src ∈ sourceKeys ((applyOp (w, warnings) (.removeNode nodeName)).1.connections),
      src ≠ nodeName) ∧
    (∀ c ∈ allTargets ((applyOp (w, warnings) (.removeNode nodeName)).1.connections),
      c.node ≠ nodeName) := by
  obtain ⟨n, hn, hname⟩ := h
  have hfind : w.nodes.findIdx? (fun n => n.name = nodeName) ≠ none := by
    intro hnone
    rw [List.findIdx?_eq_none_iff] at hnone
    have := hnone n hn
    simp [hname] at this
  simp only [applyOp]
  cases hidx : w.nodes.findIdx? (fun n => n.name = nodeName) with
  | none => exact absurd hidx hfind
  | some idx =>
    constructor
    · exact sourceKeys_purgeConnections w.connections nodeName
    · exact allTargets_purgeConnections w.connections nodeName

theorem removeNode_purges_all_references_witness :
    (∃ n ∈ cwRemove.nodes, n.name = "x") ∧
    ((∀ src ∈ sourceKeys ((applyOp (cwRemove, []) (.removeNode "x")).1.connections),
        src ≠ "x") ∧
     (∀ c ∈ allTargets ((applyOp (cwRemove, []) (.removeNode "x")).1.connections),
        c.node ≠ "x")) :=
  ⟨by decide, removeNode_purges_all_references cwRemove [] "x" (by decide)⟩

lemma updateFirstNode_spec (nodes : List Node) (nm : String) (f : Node → Node)
    (hex : ∃ n ∈ nodes, n.name = nm) :
    ∃ i node, nodes.get? i = some node ∧ node.name = nm ∧
      (∀ j < i, ∀ n', nodes.get? j = some n' → n'.name ≠ nm) ∧
      updateFirstNode nodes nm f = nodes.set i (f node) ∧
      nodes.find? (fun n => n.name = nm) = some node := by
  induction nodes with
  | nil => simp at hex
  | cons n rest ih =>
    by_cases hn : n.name = nm
    · refine ⟨0, n, rfl, hn, by simp, ?_, ?_⟩
      · simp [updateFirstNode, hn]
      · simp [List.find?_cons, hn]
    · have hex' : ∃ m ∈ rest, m.name = nm := by
        obtain ⟨m, hm, hmn⟩ := hex
        rcases List.mem_cons.mp hm with h | h
        · exact absurd (h ▸ hmn) hn
        · exact ⟨m, h, hmn⟩
      obtain ⟨i, node, h1, h2, h3, h4, h5⟩ := ih hex'
      refine ⟨i + 1, node, by simpa using h1, h2, ?_, ?_, ?_⟩
      · intro j hj n' hget
        cases j with
        | zero => simp only [List.get?] at hget; injection hget with hget; exact hget ▸ hn
        | succ j' =>
          have : j' < i := by omega
          exact h3 j' this n' (by simpa using hget)
      · simp [updateFirstNode, hn, h4]
      · simp [List.find?_cons, hn, h5]

/-- C2: when an `updateNode` operation supplies a parameter replacement
that drops at least one currently present key, the engine appends one
warning enumerating exactly the dropped keys and still applies the
merge — the target node's parameters become exactly the replacement. -/
theorem updateNode_warns_and_still_replaces (w : Workflow) (warnings : List String)
    (nodeName : String) (props : UpdateProps) (ps : List (String × JValue))
    (hps : props.parameters = some ps)
    (hex : ∃ n ∈ w.nodes, n.name = nodeName)
    (hmiss : missingParamKeys
      (((w.nodes.find? (fun n => n.name = nodeName)).map Node.parameters).getD []) ps
      ≠ []) :
    updateNodeOutcome w warnings nodeName props ps := by
  obtain ⟨i, node, h1, h2, h3, h4, h5⟩ :=
    updateFirstNode_spec w.nodes nodeName (fun n => mergeProps n props) hex
  have hmiss' : missingParamKeys node.parameters ps ≠ [] := by
    rw [h5] at hmiss
    simpa using hmiss
  have hlen : (missingParamKeys node.parameters ps).length > 0 :=
    List.length_pos.mpr hmiss'
  refine ⟨i, node, h1, h2, h3, ?_, ?_, ?_⟩
  · simp only [applyOp, h5, hps]
    exact h4
  · simp [mergeProps, hps]
  · simp only [applyOp, h5, hps]
    simp [hlen]

theorem updateNode_warns_and_still_replaces_witness :
    ((⟨none, none, none, none, some [("fresh", JValue.str "3")], none⟩ :
        UpdateProps).parameters = some [("fresh", JValue.str "3")]) ∧
    (∃ n ∈ cwUpdate.nodes, n.name = "n") ∧
    (missingParamKeys
      (((cwUpdate.nodes.find? (fun n => n.name = "n")).map Node.parameters).getD [])
      [("fresh", JValue.str "3")] ≠ []) ∧
    updateNodeOutcome cwUpdate [] "n"
      ⟨none, none, none, none, some [("fresh", JValue.str "3")], none⟩
      [("fresh", JValue.str "3")] :=
  ⟨rfl, by decide, by decide,
    updateNode_warns_and_still_replaces cwUpdate [] "n"
      ⟨none, none, none, none, some [("fresh", JValue.str "3")], none⟩
      [("fresh", JValue.str "3")] rfl (by decide) (by decide)⟩

lemma findIdx?_first_split {α : Type} (p : α → Bool) (pre post : List α) (x : α)
    (hpre : ∀ y ∈ pre, p y = false) (hx : p x = true) :
    (pre ++ x :: post).findIdx? p = some pre.length := by
  induction pre with
  | nil => simp [List.findIdx?_cons, hx]
  | cons a as ih =>
    have ha : p a = false := hpre a (List.mem_cons_self a as)
    have ih' := ih (fun y hy => hpre y (List.mem_cons_of_mem a hy))
    simp [List.findIdx?_cons, ha, ih']

lemma eraseIdx_at_split {α : Type} (pre post : List α) (x : α) :
    (pre ++ x :: post).eraseIdx pre.length = pre ++ post := by
  induction pre with
  | nil => simp
  | cons a as ih => simpa [List.eraseIdx] using ih

/-- C10: `removeConnection` leaves the warnings untouched; it is a no-op
when the addressed slot is missing or holds no entry targeting `target`,
and otherwise removes exactly the first entry whose target node name is
`target` — the matching looks only at the name, never at the entry's
input-type label or input index. -/
theorem removeConnection_removes_first_by_name (w : Workflow) (warnings : List String)
    (source target : String) (fromOutput toInput : Option Nat)
    (outputType : Option String) :
    (applyOp (w, warnings)
      (.removeConnection source target fromOutput toInput outputType)).2 = warnings ∧
    (getSlot w.connections source (jsOrStr outputType "main") (jsOrNat fromOutput 0)
        = none →
      (applyOp (w, warnings)
        (.removeConnection source target fromOutput toInput outputType)).1 = w) ∧
    (∀ slot, getSlot w.connections source (jsOrStr outputType "main")
        (jsOrNat fromOutput 0) = some slot →
      ((∀ c ∈ slot, c.node ≠ target) →
        (applyOp (w, warnings)
          (.removeConnection source target fromOutput toInput outputType)).1 = w) ∧
      (∀ pre x post, slot = pre ++ x :: post → (∀ y ∈ pre, y.node ≠ target) →
        x.node = target →
        (applyOp (w, warnings)
          (.removeConnection source target fromOutput toInput outputType)).1 =
          { w with connections := (setSlot w.connections source
              (jsOrStr outputType "main") (jsOrNat fromOutput 0) (pre ++ post)) })) := by
  refine ⟨?_, ?_, ?_⟩
  · simp only [applyOp]
    split
    · rfl
    · split
      · rfl
      · rfl
  · intro hnone
    simp only [applyOp, hnone]
  · intro slot hslot
    constructor
    · intro hno
      have hidx : slot.findIdx? (fun c => c.node = target) = none := by
        rw [List.findIdx?_eq_none_iff]
        intro c hc
        simpa using hno c hc
      simp only [applyOp, hslot, hidx]
    · intro pre x post hsplit hpre hx
      have hidx : slot.findIdx? (fun c => c.node = target) = some pre.length := by
        rw [hsplit]
        exact findIdx?_first_split _ pre post x
          (fun y hy => by simpa using hpre y hy) (by simpa using hx)
      have herase : slot.eraseIdx pre.length = pre ++ post := by
        rw [hsplit]
        exact eraseIdx_at_split pre post x
      simp only [applyOp, hslot, hidx, herase]

theorem removeConnection_removes_first_by_name_witness :
    (getSlot cwConn.connections "a" (jsOrStr none "main") (jsOrNat none 0)
      = some [⟨"b", "main", 0⟩, ⟨"c", "other", 5⟩, ⟨"c", "main", 0⟩]) ∧
    ((⟨"b", "main", 0⟩ : ConnTarget) :: (⟨"c", "other", 5⟩ : ConnTarget) ::
        [⟨"c", "main", 0⟩] = [⟨"b", "main", 0⟩] ++ ⟨"c", "other", 5⟩ :: [⟨"c", "main", 0⟩]) ∧
    (applyOp ((cwConn, []) : Workflow × List String)
        (.removeConnection "a" "c" none none none)).1 =
      { cwConn with connections := (setSlot cwConn.connections "a"
          (jsOrStr none "main") (jsOrNat none 0)
          ([⟨"b", "main", 0⟩] ++ [⟨"c", "main", 0⟩])) } :=
  ⟨by decide, by decide,
    ((removeConnection_removes_first_by_name cwConn [] "a" "c" none none none).2.2
        [⟨"b", "main", 0⟩, ⟨"c", "other", 5⟩, ⟨"c", "main", 0⟩] (by decide)).2
      [⟨"b", "main", 0⟩] ⟨"c", "other", 5⟩ [⟨"c", "main", 0⟩]
      (by decide) (by decide) (by decide)⟩

lemma mem_ite_singleton {α : Type} {c : Prop} [Decidable c] {x y : α}
    (h : y ∈ (if c then [x] else ([] : List α))) : y = x := by
  split at h
  · simpa using h
  · simp at h

lemma severity_validateSnakeCase (name context : String) :
    ∀ warn ∈ validateSnakeCase name context, warn.severity ≠ Severity.error := by
  intro warn h
  simp only [validateSnakeCase] at h
  have hx := mem_ite_singleton h
  subst hx
  simp

lemma severity_checkForJsonUsage (node : Node) :
    ∀ warn ∈ checkForJsonUsage node, warn.severity ≠ Severity.error := by
  intro warn h
  simp only [checkForJsonUsage] at h
  have hx := mem_ite_singleton h
  subst hx
  simp

lemma severity_checkForHardcodedIds (node : Node) :
    ∀ warn ∈ checkForHardcodedIds node, warn.severity ≠ Severity.error := by
  intro warn h
  simp only [checkForHardcodedIds] at h
  have hx := mem_ite_singleton h
  subst hx
  simp

lemma severity_checkForHardcodedSecrets (node : Node) :
    ∀ warn ∈ checkForHardcodedSecrets node, warn.severity ≠ Severity.error := by
  intro warn h
  simp only [checkForHardcodedSecrets] at h
  have hx := mem_ite_singleton h
  subst hx
  simp

lemma severity_checkForCodeNodeUsage (node : Node) :
    ∀ warn ∈ checkForCodeNodeUsage node, warn.severity ≠ Severity.error := by
  intro warn h
  simp only [checkForCodeNodeUsage] at h
  have hx := mem_ite_singleton h
  subst hx
  simp

lemma severity_checkForAIStructuredOutput (node : Node) :
    ∀ warn ∈ checkForAIStructuredOutput node, warn.severity ≠ Severity.error := by
  intro warn h
  simp only [checkForAIStructuredOutput] at h
  have hx := mem_ite_singleton h
  subst hx
  simp

lemma severity_checkForInMemoryStorage (node : Node) :
    ∀ warn ∈ checkForInMemoryStorage node, warn.severity ≠ Severity.error := by
  intro warn h
  simp only [checkForInMemoryStorage] at h
  have hx := mem_ite_singleton h
  subst hx
  simp

lemma severity_validateNode (node : Node) :
    ∀ warn ∈ validateNode node, warn.severity ≠ Severity.error := by
  intro warn h
  simp only [validateNode, List.mem_append, or_assoc] at h
  rcases h with h | h | h | h | h | h | h
  · exact severity_validateSnakeCase _ _ warn h
  · exact severity_checkForJsonUsage node warn h
  · exact severity_checkForHardcodedIds node warn h
  · exact severity_checkForHardcodedSecrets node warn h
  · exact severity_checkForCodeNodeUsage node warn h
  · exact severity_checkForAIStructuredOutput node warn h
  · exact severity_checkForInMemoryStorage node warn h

lemma severity_validateConnections (w : Workflow) :
    ∀ warn ∈ validateConnections w, warn.severity ≠ Severity.error := by
  intro warn h
  simp only [validateConnections, List.mem_flatMap] at h
  obtain ⟨node, _, h⟩ := h
  have hx := mem_ite_singleton h
  subst hx
  simp

/-- C8: the full-workflow validator only ever emits `warning`- or
`info`-severity warnings, and `valid` is the absence of error-severity
warnings, so `validateWorkflow` returns `valid = true` on every
workflow. -/
theorem validateWorkflow_never_invalid (w : Workflow) :
    (validateWorkflow w).valid = true ∧
    ∀ warn ∈ (validateWorkflow w).warnings, warn.severity ≠ Severity.error := by
  have hall : ∀ warn ∈ (validateSnakeCase w.name "workflow" ++
      w.nodes.flatMap validateNode ++ validateConnections w),
      warn.severity ≠ Severity.error := by
    intro warn h
    rcases List.mem_append.mp h with h | h
    · rcases List.mem_append.mp h with h | h
      · exact severity_validateSnakeCase _ _ warn h
      · simp only [List.mem_flatMap] at h
        obtain ⟨node, _, h⟩ := h
        exact severity_validateNode node warn h
    · exact severity_validateConnections w warn h
  have hnil : (validateSnakeCase w.name "workflow" ++ w.nodes.flatMap validateNode ++
      validateConnections w).filter (fun warn => warn.severity = Severity.error) = [] := by
    apply List.filter_eq_nil_iff.mpr
    intro a ha
    simpa using hall a ha
  constructor
  · simp only [validateWorkflow, hnil]
    rfl
  · intro warn h
    simp only [validateWorkflow] at h
    exact hall warn h

/-- C4 counterexample: on Scenario A's workflow the validator emits
exactly one naming-convention warning, not two — `MyTrigger` normalises
to `mytrigger`, which passes the snake pattern. -/
theorem scenarioA_validate_one_naming_warning :
    ((validateWorkflow scenarioA).warnings.filter
      (fun warn => warn.rule = "snake_case")).length = 1 ∧
    ¬ ((validateWorkflow scenarioA).warnings.filter
      (fun warn => warn.rule = "snake_case")).length = 2 := by
  decide

/-- C4 amended: Scenario A yields exactly one naming warning (for the
workflow name only); autofix renames the workflow to `my_workflow`,
leaves the node named `MyTrigger`, and returns 1 fix and 0 unfixable
warnings. -/
theorem scenarioA_one_warning_one_fix :
    (validateWorkflow scenarioA).warnings =
      [{ node := none, rule := "snake_case",
         message := "workflow should use snake_case naming: \"My-Workflow\" → \"my-workflow\"",
         severity := .warning }] ∧
    (autofixWorkflow scenarioA (validateWorkflow scenarioA).warnings).workflow.name
      = "my_workflow" ∧
    (autofixWorkflow scenarioA (validateWorkflow scenarioA).warnings).workflow.nodes.map
      Node.name = ["MyTrigger"] ∧
    (autofixWorkflow scenarioA (validateWorkflow scenarioA).warnings).fixes.length = 1 ∧
    (autofixWorkflow scenarioA (validateWorkflow scenarioA).warnings).unfixable = [] := by
  refine ⟨by decide, by decide, by decide, by decide, by decide⟩

/-- C5 counterexample: a snake_case warning whose target is already in
normalised form is pushed to `unfixable` (the claim said it reaches
neither output list). -/
theorem snakeCase_noop_lands_in_unfixable :
    (autofixWorkflow snakeNoopWorkflow [snakeNoopWarning]).fixes = [] ∧
    (autofixWorkflow snakeNoopWorkflow [snakeNoopWarning]).unfixable
      = [snakeNoopWarning] := by
  decide

/-- C5 amended: a snake_case warning whose target name already equals
its snake_case normalisation produces no fix action; the warning is
appended to `unfixable` and the workflow is returned unchanged. -/
theorem snakeCase_noop_goes_to_unfixable (w : Workflow) (warning : ValidationWarning)
    (hrule : warning.rule = "snake_case")
    (hname : toSnakeCase (warning.node.getD w.name) = warning.node.getD w.name) :
    autofixWorkflow w [warning] = ⟨w, [], [warning]⟩ := by
  have step : attemptFix w warning = (w, none) := by
    rw [attemptFix, if_pos hrule]
    cases hn : warning.node with
    | none =>
      rw [hn] at hname
      simp only [Option.getD] at hname
      simp only [fixSnakeCase, hn]
      rw [if_pos hname.symm]
    | some t =>
      rw [hn] at hname
      simp only [Option.getD] at hname
      simp only [fixSnakeCase, hn]
      cases hf : w.nodes.find? (fun n => n.name = t) with
      | none => rfl
      | some node =>
        have hnm : node.name = t := by simpa using List.find?_some hf
        simp only [hnm]
        rw [if_pos hname.symm]
  simp only [autofixWorkflow, List.foldl_cons, List.foldl_nil, autofixStep, step,
    List.nil_append]

theorem snakeCase_noop_goes_to_unfixable_witness :
    snakeNoopWarning.rule = "snake_case" ∧
    toSnakeCase (snakeNoopWarning.node.getD snakeNoopWorkflow.name)
      = snakeNoopWarning.node.getD snakeNoopWorkflow.name ∧
    autofixWorkflow snakeNoopWorkflow [snakeNoopWarning]
      = ⟨snakeNoopWorkflow, [], [snakeNoopWarning]⟩ :=
  ⟨rfl, by decide,
    snakeCase_noop_goes_to_unfixable snakeNoopWorkflow snakeNoopWarning rfl (by decide)⟩

lemma getKey_eq_none_iff {α : Type} (m : List (String × α)) (k : String) :
    getKey m k = none ↔ ∀ p ∈ m, p.1 ≠ k := by
  induction m with
  | nil => simp [getKey]
  | cons p rest ih =>
    obtain ⟨k', v⟩ := p
    by_cases hk : k' = k
    · simp [getKey, hk]
    · simp [getKey, hk, ih]

lemma getKey_split {α : Type} {m : List (String × α)} {k : String} {v : α}
    (h : getKey m k = some v) :
    ∃ pre post, m = pre ++ (k, v) :: post ∧ ∀ p ∈ pre, p.1 ≠ k := by
  induction m with
  | nil => simp [getKey] at h
  | cons p rest ih =>
    obtain ⟨k', v'⟩ := p
    by_cases hk : k' = k
    · refine ⟨[], rest, ?_, by simp⟩
      simp only [getKey, if_pos hk] at h
      injection h with h
      simp [hk, h]
    · simp only [getKey, if_neg hk] at h
      obtain ⟨pre, post, hsplit, hpre⟩ := ih h
      refine ⟨(k', v') :: pre, post, by simp [hsplit], ?_⟩
      intro p hp
      rcases List.mem_cons.mp hp with hp | hp
      · simp [hp, hk]
      · exact hpre p hp

lemma setKey_of_getKey_none {α : Type} {m : List (String × α)} {k : String} (v : α)
    (h : getKey m k = none) : setKey m k v = m ++ [(k, v)] := by
  induction m with
  | nil => rfl
  | cons p rest ih =>
    obtain ⟨k', v'⟩ := p
    by_cases hk : k' = k
    · simp [getKey, hk] at h
    · simp only [getKey, if_neg hk] at h
      simp [setKey, hk, ih h]

lemma getKey_append_of_forall_ne {α : Type} {l₁ : List (String × α)}
    (l₂ : List (String × α)) {k : String} (h : ∀ p ∈ l₁, p.1 ≠ k) :
    getKey (l₁ ++ l₂) k = getKey l₂ k := by
  induction l₁ with
  | nil => rfl
  | cons p rest ih =>
    obtain ⟨k', v'⟩ := p
    have hk : k' ≠ k := h (k', v') (List.mem_cons_self _ _)
    simp only [List.cons_append, getKey, if_neg hk]
    exact ih (fun p hp => h p (List.mem_cons_of_mem _ hp))

lemma getKey_append_middle_ne {α : Type} (pre post : List (String × α)) (k s : String)
    (v : α) (hs : k ≠ s) :
    getKey (pre ++ (k, v) :: post) s = getKey (pre ++ post) s := by
  induction pre with
  | nil => simp [getKey, hs]
  | cons p rest ih =>
    obtain ⟨k', v'⟩ := p
    by_cases hk : k' = s
    · simp [getKey, hk]
    · simp [getKey, hk, ih]

lemma getKey_append_single_ne {α : Type} (l : List (String × α)) (k s : String) (v : α)
    (hs : k ≠ s) : getKey (l ++ [(k, v)]) s = getKey l s := by
  induction l with
  | nil => simp [getKey, hs]
  | cons p rest ih =>
    obtain ⟨k', v'⟩ := p
    by_cases hk : k' = s
    · simp [getKey, hk]
    · simp [getKey, hk, ih]

lemma getKey_mapVal {α β : Type} (f : α → β) (m : List (String × α)) (s : String) :
    getKey (m.map (fun p => (p.1, f p.2))) s = (getKey m s).map f := by
  induction m with
  | nil => rfl
  | cons p rest ih =>
    obtain ⟨k, v⟩ := p
    by_cases hk : k = s
    · simp [getKey, hk]
    · simp [getKey, hk, ih]

lemma sourceKeys_mapVal {α β : Type} (f : α → β) (m : List (String × α)) :
    (m.map (fun p => (p.1, f p.2))).map Prod.fst = m.map Prod.fst := by
  induction m with
  | nil => rfl
  | cons p rest ih => simp [ih]

lemma getKey_renameTargets (conns : Connections) (o n s : String) :
    getKey (renameTargets conns o n) s = (getKey conns s).map (renameOuts o n) :=
  getKey_mapVal (renameOuts o n) conns s

lemma sourceKeys_renameTargets (conns : Connections) (o n : String) :
    sourceKeys (renameTargets conns o n) = sourceKeys conns :=
  sourceKeys_mapVal (renameOuts o n) conns

lemma delKey_eq_self {α : Type} {l : List (String × α)} {k : String}
    (h : ∀ p ∈ l, p.1 ≠ k) : delKey l k = l := by
  apply List.filter_eq_self.mpr
  intro a ha
  simpa using h a ha

lemma delKey_append {α : Type} (a b : List (String × α)) (k : String) :
    delKey (a ++ b) k = delKey a k ++ delKey b k :=
  List.filter_append a b

lemma delKey_cons_self {α : Type} (k : String) (v : α) (l : List (String × α)) :
    delKey ((k, v) :: l) k = delKey l k := by
  simp [delKey, List.filter_cons]

lemma allTargets_cons (p : String × SourceOutputs) (l : Connections) :
    allTargets (p :: l)
      = p.2.flatMap (fun q => q.2.flatMap (fun slot => slot)) ++ allTargets l := by
  simp [allTargets]

lemma allTargets_append (a b : Connections) :
    allTargets (a ++ b) = allTargets a ++ allTargets b := by
  simp [allTargets, List.flatMap_append]

lemma allTargets_renameTargets (conns : Connections) (o n : String) :
    allTargets (renameTargets conns o n) = (allTargets conns).map (renTgt o n) := by
  simp only [allTargets, renameTargets, renameOuts, List.flatMap_map, List.map_flatMap]

lemma renTgt_node_ne (o n : String) (h : n ≠ o) (c : ConnTarget) :
    (renTgt o n c).node ≠ o := by
  unfold renTgt
  split
  · exact h
  · next hc => exact fun hh => hc hh

lemma allTargets_renameTargets_node_ne (conns : Connections) (o n : String) (h : n ≠ o) :
    ∀ c ∈ allTargets (renameTargets conns o n), c.node ≠ o := by
  intro c hc
  rw [allTargets_renameTargets] at hc
  obtain ⟨c₀, _, hc⟩ := List.mem_map.mp hc
  exact hc ▸ renTgt_node_ne o n h c₀

/-- C3 amended: an applied node-rename fix preserves the total
target-entry count and renames every reference — provided the
normalised name is not already a source key of the connection map (or
the old name is not one); the unguarded claim fails when both keys are
present, because the key move overwrites the normalised key's entry. -/
theorem fixSnakeCase_rename_preserves_topology (w : Workflow)
    (warning : ValidationWarning) (old : String)
    (hn : warning.node = some old)
    (hex : ∃ n ∈ w.nodes, n.name = old)
    (hne : toSnakeCase old ≠ old)
    (hnodup : (sourceKeys w.connections).Nodup)
    (hfresh : getKey w.connections (toSnakeCase old) = none ∨
      getKey w.connections old = none) :
    renameOutcome w warning old := by
  obtain ⟨node, hfind⟩ : ∃ node, w.nodes.find? (fun n => n.name = old) = some node := by
    have h1 : (w.nodes.find? (fun n => n.name = old)).isSome = true := by
      apply List.find?_isSome.mpr
      obtain ⟨n, hmem, hnm⟩ := hex
      exact ⟨n, hmem, by simpa using hnm⟩
    exact Option.isSome_iff_exists.mp h1
  have hnm : node.name = old := by simpa using List.find?_some hfind
  have hcond : ¬ (node.name = toSnakeCase node.name) := by
    rw [hnm]
    exact fun h => hne h.symm
  cases hold : getKey w.connections old with
  | none =>
    have hconn : (fixSnakeCase w warning).1.connections
        = renameTargets w.connections old (toSnakeCase old) := by
      simp only [fixSnakeCase, hn, hfind, hnm, if_neg (hnm ▸ hcond), hold]
    have hsome : (fixSnakeCase w warning).2.isSome = true := by
      simp only [fixSnakeCase, hn, hfind, hnm, if_neg (hnm ▸ hcond), hold]
      rfl
    have hnone := (getKey_eq_none_iff w.connections old).mp hold
    refine ⟨hsome, ?_, ?_, ?_, ?_, ?_⟩
    · rw [hconn, allTargets_renameTargets, List.length_map]
    · intro src hsrc
      rw [hconn, sourceKeys_renameTargets] at hsrc
      obtain ⟨p, hp, hps⟩ := List.mem_map.mp hsrc
      exact hps ▸ hnone p hp
    · rw [hconn]
      exact allTargets_renameTargets_node_ne w.connections old (toSnakeCase old) hne
    · intro v hv
      rw [hold] at hv
      cases hv
    · intro s _ _
      rw [hconn, getKey_renameTargets]
  | some v =>
    have hfreshNew : getKey w.connections (toSnakeCase old) = none := by
      rcases hfresh with h | h
      · exact h
      · rw [hold] at h
        cases h
    obtain ⟨pre, post, hsplit, hpre⟩ := getKey_split hold
    have hpost : ∀ p ∈ post, p.1 ≠ old := by
      have hkeys := hnodup
      rw [hsplit] at hkeys
      simp only [sourceKeys, List.map_append, List.map_cons] at hkeys
      rw [List.nodup_append] at hkeys
      have h2 := hkeys.2.1
      rw [List.nodup_cons] at h2
      intro p hp heq
      exact h2.1 (List.mem_map.mpr ⟨p, hp, heq⟩)
    have hallnew : ∀ p ∈ w.connections, p.1 ≠ toSnakeCase old :=
      (getKey_eq_none_iff w.connections (toSnakeCase old)).mp hfreshNew
    have hprenew : ∀ p ∈ pre, p.1 ≠ toSnakeCase old := fun p hp =>
      hallnew p (by rw [hsplit]; exact List.mem_append_left _ hp)
    have hpostnew : ∀ p ∈ post, p.1 ≠ toSnakeCase old := fun p hp =>
      hallnew p (by rw [hsplit]; exact List.mem_append_right _ (List.mem_cons_of_mem _ hp))
    have hset : setKey w.connections (toSnakeCase old) v
        = w.connections ++ [(toSnakeCase old, v)] :=
      setKey_of_getKey_none v hfreshNew
    have hdel : delKey (w.connections ++ [(toSnakeCase old, v)]) old
        = (pre ++ post) ++ [(toSnakeCase old, v)] := by
      rw [hsplit, delKey_append, delKey_append, delKey_cons_self,
        delKey_eq_self hpre, delKey_eq_self hpost,
        delKey_eq_self (fun p hp => by
          simp only [List.mem_singleton] at hp
          simpa [hp] using hne)]
    have hconn : (fixSnakeCase w warning).1.connections
        = renameTargets ((pre ++ post) ++ [(toSnakeCase old, v)]) old (toSnakeCase old) := by
      simp only [fixSnakeCase, hn, hfind, hnm, if_neg (hnm ▸ hcond), hold, hset, hdel]
    have hsome : (fixSnakeCase w warning).2.isSome = true := by
      simp only [fixSnakeCase, hn, hfind, hnm, if_neg (hnm ▸ hcond), hold]
      rfl
    refine ⟨hsome, ?_, ?_, ?_, ?_, ?_⟩
    · rw [hconn, allTargets_renameTargets, List.length_map, hsplit]
      simp only [allTargets, List.flatMap_append, List.flatMap_cons, List.flatMap_nil,
        List.append_nil, List.length_append]
      omega
    · intro src hsrc
      rw [hconn, sourceKeys_renameTargets] at hsrc
      simp only [sourceKeys, List.map_append, List.mem_append] at hsrc
      rcases hsrc with (hsrc | hsrc) | hsrc
      · obtain ⟨p, hp, hps⟩ := List.mem_map.mp hsrc
        exact hps ▸ hpre p hp
      · obtain ⟨p, hp, hps⟩ := List.mem_map.mp hsrc
        exact hps ▸ hpost p hp
      · simp only [List.map_cons, List.map_nil, List.mem_singleton] at hsrc
        exact hsrc ▸ hne
    · rw [hconn]
      exact allTargets_renameTargets_node_ne _ old (toSnakeCase old) hne
    · intro v' hv'
      rw [hold] at hv'
      injection hv' with hv'
      subst hv'
      rw [hconn, getKey_renameTargets]
      have : getKey ((pre ++ post) ++ [(toSnakeCase old, v)]) (toSnakeCase old)
          = some v := by
        rw [getKey_append_of_forall_ne _ (fun p hp => ?_)]
        · simp [getKey]
        · rcases List.mem_append.mp hp with hp | hp
          · exact hprenew p hp
          · exact hpostnew p hp
      rw [this]
      rfl
    · intro s hso hsn
      rw [hconn, getKey_renameTargets]
      rw [getKey_append_single_ne _ _ _ _ (fun h => hsn h.symm)]
      rw [← getKey_append_middle_ne pre post old s v (fun h => hso h.symm)]
      rw [← hsplit]

/-- C3 counterexample: when the connection map already holds the
normalised key, the key move of the rename fix overwrites it and the
total target-entry count drops from 2 to 1. -/
theorem fixSnakeCase_clash_changes_target_count :
    (allTargets cwRenameClash.connections).length = 2 ∧
    (allTargets (fixSnakeCase cwRenameClash warnRenameClash).1.connections).length = 1 := by
  decide

theorem fixSnakeCase_rename_preserves_topology_witness :
    warnRenameClash.node = some "MyNode" ∧
    (∃ n ∈ cwRenameOk.nodes, n.name = "MyNode") ∧
    toSnakeCase "MyNode" ≠ "MyNode" ∧
    (sourceKeys cwRenameOk.connections).Nodup ∧
    (getKey cwRenameOk.connections (toSnakeCase "MyNode") = none ∨
      getKey cwRenameOk.connections "MyNode" = none) ∧
    renameOutcome cwRenameOk warnRenameClash "MyNode" :=
  ⟨rfl, by decide, by decide, by decide, Or.inl (by decide),
    fixSnakeCase_rename_preserves_topology cwRenameOk warnRenameClash "MyNode" rfl
      (by decide) (by decide) (by decide) (Or.inl (by decide))⟩

lemma refIssueMsg_inj {a b : String} (h : refIssueMsg a = refIssueMsg b) : a = b := by
  have hd := congrArg String.data h
  simp only [refIssueMsg, String.data_append] at hd
  exact String.ext (List.append_cancel_left (List.append_cancel_right hd))

lemma ne_refIssueMsg_of_head {s : String} (nm : String) (c : Char)
    (hs : s.data.head? = some c) (hc : c ≠ 'R') : s ≠ refIssueMsg nm := by
  intro h
  rw [h] at hs
  have hr : (refIssueMsg nm).data.head? = some 'R' := by
    simp only [refIssueMsg, String.data_append]
    rfl
  rw [hr] at hs
  injection hs with hs
  exact hc hs.symm

lemma mem_validateExpression_cases {expression : String} {nodeNames : List String}
    {core : IssueCore} (h : core ∈ validateExpression expression nodeNames) :
    (∃ nm, nm ∈ extractRefs (stripExprWrapper expression) ∧
        nodeNames.contains nm = false ∧ core.issue = refIssueMsg nm) ∨
    ∃ c, core.issue.data.head? = some c ∧ c ≠ 'R' := by
  simp only [validateExpression, List.mem_append] at h
  rcases h with (((((((h | h) | h) | h) | h) | h) | h) | h)
  · have hx := mem_ite_singleton h
    exact Or.inr ⟨'U', by rw [hx]; rfl, by decide⟩
  · have hx := mem_ite_singleton h
    exact Or.inr ⟨'$', by rw [hx]; rfl, by decide⟩
  · obtain ⟨nm, hnm, hcore⟩ := List.mem_map.mp h
    rw [List.mem_filter] at hnm
    refine Or.inl ⟨nm, hnm.1, ?_, by rw [← hcore]⟩
    have := hnm.2
    simpa using this
  · have hx := mem_ite_singleton h
    exact Or.inr ⟨'M', by rw [hx]; rfl, by decide⟩
  · have hx := mem_ite_singleton h
    exact Or.inr ⟨'U', by rw [hx]; rfl, by decide⟩
  · have hx := mem_ite_singleton h
    exact Or.inr ⟨'U', by rw [hx]; rfl, by decide⟩
  · have hx := mem_ite_singleton h
    exact Or.inr ⟨'$', by rw [hx]; rfl, by decide⟩
  · have hx := mem_ite_singleton h
    exact Or.inr ⟨'D', by rw [hx]; rfl, by decide⟩

/-- C7: for every workflow, node, extracted expression and explicit
reference `$(…)` found in it: an unresolved referenced name yields the
error-severity "References non-existent node" issue in the analyzer's
output, and when the referenced name is a node of the workflow, no
issue with that message appears anywhere in the output. -/
theorem expression_refs_resolved_against_nodes (w : Workflow) (node : Node)
    (hn : node ∈ w.nodes) (path expr : String)
    (hext : (path, expr) ∈ extractExpressions node.parameters) (nm : String)
    (hm : nm ∈ extractRefs (stripExprWrapper expr)) :
    ((workflowNodeNames w).contains nm = false →
      ({ node := node.name, parameter := path, expression := expr,
         issue := refIssueMsg nm, severity := .error,
         suggestion := some "Check if the node exists or was renamed" } : ExpressionIssue)
        ∈ validateExpressions w) ∧
    ((workflowNodeNames w).contains nm = true →
      ∀ issue ∈ validateExpressions w, issue.issue ≠ refIssueMsg nm) := by
  constructor
  · intro hmiss
    have hcore : (⟨refIssueMsg nm, .error,
        some "Check if the node exists or was renamed"⟩ : IssueCore)
        ∈ validateExpression expr (workflowNodeNames w) := by
      simp only [validateExpression, List.mem_append]
      refine Or.inl (Or.inl (Or.inl (Or.inl (Or.inl (Or.inr ?_)))))
      refine List.mem_map.mpr ⟨nm, ?_, rfl⟩
      rw [List.mem_filter]
      exact ⟨hm, by simpa using hmiss⟩
    simp only [validateExpressions, List.mem_flatMap]
    refine ⟨node, hn, ?_⟩
    simp only [validateNodeExpressions, List.mem_flatMap]
    exact ⟨(path, expr), hext, List.mem_map.mpr ⟨_, hcore, rfl⟩⟩
  · intro hhit issue hissue
    simp only [validateExpressions, List.mem_flatMap] at hissue
    obtain ⟨node', _, hissue⟩ := hissue
    simp only [validateNodeExpressions, List.mem_flatMap] at hissue
    obtain ⟨pe, _, hissue⟩ := hissue
    obtain ⟨core, hcore, hmk⟩ := List.mem_map.mp hissue
    have hic : issue.issue = core.issue := by rw [← hmk]
    rcases mem_validateExpression_cases hcore with ⟨nm', _, hnm', heq⟩ | ⟨c, hc, hcr⟩
    · intro hbad
      rw [hic, heq] at hbad
      have := refIssueMsg_inj hbad
      rw [this] at hnm'
      rw [hhit] at hnm'
      cases hnm'
    · rw [hic]
      exact ne_refIssueMsg_of_head nm c hc hcr

theorem expression_refs_resolved_against_nodes_witness :
    exprNode ∈ exprWorkflow.nodes ∧
    ("msg", "=\x7b\x7b $(\"ghost\").item.json.x \x7d\x7d")
      ∈ extractExpressions exprNode.parameters ∧
    "ghost" ∈ extractRefs
      (stripExprWrapper "=\x7b\x7b $(\"ghost\").item.json.x \x7d\x7d") ∧
    (workflowNodeNames exprWorkflow).contains "ghost" = false ∧
    ({ node := "user", parameter := "msg",
       expression := "=\x7b\x7b $(\"ghost\").item.json.x \x7d\x7d",
       issue := refIssueMsg "ghost", severity := .error,
       suggestion := some "Check if the node exists or was renamed" } : ExpressionIssue)
      ∈ validateExpressions exprWorkflow :=
  ⟨List.mem_cons_self _ _, by decide, by decide, by decide,
    (expression_refs_resolved_against_nodes exprWorkflow exprNode
        (List.mem_cons_self _ _) "msg" "=\x7b\x7b $(\"ghost\").item.json.x \x7d\x7d"
        (by decide) "ghost" (by decide)).1 (by decide)⟩

lemma length_insertByTimestampDesc (m : WorkflowVersion) (l : List WorkflowVersion) :
    (insertByTimestampDesc m l).length = l.length + 1 := by
  induction l with
  | nil => rfl
  | cons x xs ih =>
    simp only [insertByTimestampDesc]
    split
    · simp [ih]
    · simp

lemma length_sortByTimestampDesc (l : List WorkflowVersion) :
    (sortByTimestampDesc l).length = l.length := by
  induction l with
  | nil => rfl
  | cons m ms ih => simp [sortByTimestampDesc, length_insertByTimestampDesc, ih]

lemma pruneVersions_of_le (cfg : VersionConfig) (store : VersionStore) (wid : String)
    (h : (listVersions store wid).length ≤ cfg.maxVersions) :
    pruneVersions cfg store wid = store := by
  unfold pruneVersions
  simp [h]

lemma listVersions_append_single (store : VersionStore) (e : StoredVersion)
    (hnil : store.entries.filter (fun x => x.meta.workflowId = e.meta.workflowId) = []) :
    listVersions ⟨store.entries ++ [e]⟩ e.meta.workflowId = [e.meta] := by
  unfold listVersions
  rw [List.filter_append, hnil]
  simp [sortByTimestampDesc, insertByTimestampDesc]

/-- C9: the content hash reads only nodes, connections and settings, so
saving a workflow agreeing with the newest stored snapshot on those
fields — whatever its name or active flag — writes nothing and returns
`none`, the store left exactly as it was. -/
theorem saveVersion_ignores_noncontent_fields (cfg : VersionConfig)
    (store : VersionStore) (w1 w2 : Workflow) (reason timestamp : String)
    (m : WorkflowVersion) (rest : List WorkflowVersion)
    (hen : cfg.enabled = true)
    (hnodes : w2.nodes = w1.nodes)
    (hconns : w2.connections = w1.connections)
    (hsettings : w2.settings = w1.settings)
    (hlist : listVersions store w2.id = m :: rest)
    (hhash : m.hash = hashWorkflow w1) :
    hashWorkflow w2 = hashWorkflow w1 ∧
    saveVersion cfg store w2 reason timestamp = (store, none) := by
  have hh : hashWorkflow w2 = hashWorkflow w1 := by
    unfold hashWorkflow
    rw [hnodes, hconns, hsettings]
  refine ⟨hh, ?_⟩
  simp only [saveVersion, hen, if_true, hlist]
  rw [if_pos (hhash.trans hh.symm)]

set_option maxRecDepth 40000 in
theorem saveVersion_ignores_noncontent_fields_witness :
    defaultVersionConfig.enabled = true ∧
    versionedW2.nodes = versionedW1.nodes ∧
    versionedW2.connections = versionedW1.connections ∧
    versionedW2.settings = versionedW1.settings ∧
    listVersions versionedStore versionedW2.id =
      writeMeta versionedW1 "manual" "2024-01-01T00:00:00.000Z"
        (hashWorkflow versionedW1) :: [] ∧
    (writeMeta versionedW1 "manual" "2024-01-01T00:00:00.000Z"
        (hashWorkflow versionedW1)).hash = hashWorkflow versionedW1 ∧
    (hashWorkflow versionedW2 = hashWorkflow versionedW1 ∧
      saveVersion defaultVersionConfig versionedStore versionedW2 "manual"
        "2024-01-02T00:00:00.000Z" = (versionedStore, none)) :=
  ⟨rfl, rfl, rfl, rfl, rfl, rfl,
    saveVersion_ignores_noncontent_fields defaultVersionConfig versionedStore
      versionedW1 versionedW2 "manual" "2024-01-02T00:00:00.000Z"
      (writeMeta versionedW1 "manual" "2024-01-01T00:00:00.000Z"
        (hashWorkflow versionedW1)) [] rfl rfl rfl rfl rfl rfl⟩

/-- C6: starting with no stored snapshot for the workflow id (retention
at least 1, versioning enabled), the first save writes a snapshot and
the second save of the identical workflow finds the newest snapshot's
hash equal, writes nothing and returns `none` — exactly one snapshot is
stored. -/
theorem saveVersion_dedup_immediate (cfg : VersionConfig) (store : VersionStore)
    (w : Workflow) (r1 r2 t1 t2 : String)
    (hen : cfg.enabled = true)
    (hmax : 1 ≤ cfg.maxVersions)
    (hempty : listVersions store w.id = []) :
    (saveVersion cfg store w r1 t1).2.isSome = true ∧
    saveVersion cfg (saveVersion cfg store w r1 t1).1 w r2 t2
      = ((saveVersion cfg store w r1 t1).1, none) ∧
    (listVersions (saveVersion cfg store w r1 t1).1 w.id).length = 1 := by
  have hfilterNil : store.entries.filter (fun e => e.meta.workflowId = w.id) = [] := by
    have hlen := congrArg List.length hempty
    simp only [listVersions, length_sortByTimestampDesc, List.length_map,
      List.length_nil] at hlen
    exact List.length_eq_zero.mp hlen
  have h1 : saveVersion cfg store w r1 t1
      = writeVersion cfg store w r1 t1 (hashWorkflow w) := by
    simp only [saveVersion, hen, if_true, hempty]
  have hlist1 : listVersions
      ⟨store.entries ++ [⟨writeMeta w r1 t1 (hashWorkflow w), w⟩]⟩ w.id
      = [writeMeta w r1 t1 (hashWorkflow w)] :=
    listVersions_append_single store ⟨writeMeta w r1 t1 (hashWorkflow w), w⟩ hfilterNil
  have hprune : pruneVersions cfg
      ⟨store.entries ++ [⟨writeMeta w r1 t1 (hashWorkflow w), w⟩]⟩ w.id
      = ⟨store.entries ++ [⟨writeMeta w r1 t1 (hashWorkflow w), w⟩]⟩ := by
    apply pruneVersions_of_le
    rw [hlist1]
    simpa using hmax
  have hs1 : (saveVersion cfg store w r1 t1).1
      = ⟨store.entries ++ [⟨writeMeta w r1 t1 (hashWorkflow w), w⟩]⟩ := by
    rw [h1]
    unfold writeVersion
    rw [hprune]
  have hlist2 : listVersions (saveVersion cfg store w r1 t1).1 w.id
      = [writeMeta w r1 t1 (hashWorkflow w)] := by
    rw [hs1]
    exact hlist1
  refine ⟨?_, ?_, ?_⟩
  · rw [h1]
    rfl
  · set s1 := (saveVersion cfg store w r1 t1).1 with hs1def
    simp only [saveVersion, hen, if_true, hlist2]
    have hwh : (writeMeta w r1 t1 (hashWorkflow w)).hash = hashWorkflow w := rfl
    rw [if_pos hwh]
  · rw [hlist2]
    rfl

theorem saveVersion_dedup_immediate_witness :
    defaultVersionConfig.enabled = true ∧
    1 ≤ defaultVersionConfig.maxVersions ∧
    listVersions ⟨[]⟩ scenarioA.id = [] ∧
    ((saveVersion defaultVersionConfig ⟨[]⟩ scenarioA "before_update"
        "2024-01-01T00:00:00.000Z").2.isSome = true ∧
      saveVersion defaultVersionConfig
        (saveVersion defaultVersionConfig ⟨[]⟩ scenarioA "before_update"
          "2024-01-01T00:00:00.000Z").1 scenarioA "before_update"
        "2024-01-01T00:00:01.000Z"
        = ((saveVersion defaultVersionConfig ⟨[]⟩ scenarioA "before_update"
            "2024-01-01T00:00:00.000Z").1, none) ∧
      (listVersions (saveVersion defaultVersionConfig ⟨[]⟩ scenarioA "before_update"
          "2024-01-01T00:00:00.000Z").1 scenarioA.id).length = 1) :=
  ⟨rfl, by decide, rfl,
    saveVersion_dedup_immediate defaultVersionConfig ⟨[]⟩ scenarioA "before_update"
      "before_update" "2024-01-01T00:00:00.000Z" "2024-01-01T00:00:01.000Z"
      rfl (by decide) rfl⟩

end N8nMcp

